import Mathlib

/-!
Map-Class: a random dungeon generator (src/map.js)

A shallow embedding of the `Map` class of src/map.js and a verification of its
generation procedure.  JavaScript numbers are embedded as rationals and the
arithmetic of the generator is exact: coordinates and sizes are integers far
below `2^53`.  The one operation whose binary64 rounding shows at such sizes,
the product `Math.random() * (max - min)`, is also given in binary64 arithmetic
(`roundDouble`, `getRandomDouble`).  `Math.random()` is an explicit stream of
values indexed by the number of draws made so far, and the two Phaser groups
`floors` and `walls` are the lists of positions at which a sprite was created,
in creation order.

The physics part of `createFloor` (enabling a body and destroying the walls
that overlap the new floor sprite) belongs to the rendering host and is not
part of the embedding: `walls` records the wall tiles that were created.
-/

namespace MapClass

/-- Exceptions the JavaScript runtime can raise while the generator runs:
reading a property of `undefined` raises a TypeError. -/
inductive JSError where
  | typeError
  deriving DecidableEq, Repr

/-- The ambient globals the class reads: the size of `game.world` and the
values returned by successive calls of `Math.random()`. -/
structure Game where
  worldWidth : ℚ
  worldHeight : ℚ
  random : ℕ → ℚ

/-- A record of one call of a painting method, with its arguments. -/
inductive Call where
  | createRoom (x1 x2 y1 y2 : ℚ)
  | createHTunnel (x1 x2 y : ℚ)
  | createVTunnel (y1 y2 x : ℚ)
  deriving DecidableEq, Repr

/-- The fields of a `Map` object (map.js lines 30-46).  `lastRoomCoords` is not
set by the constructor, so it starts out undefined (`none`).  `draws` counts the
calls of `Math.random()` and `calls` logs the painting methods invoked; the two
are bookkeeping of the embedding. -/
structure MapState where
  floors : List (ℚ × ℚ)
  walls : List (ℚ × ℚ)
  room_min_size : ℤ
  room_max_size : ℤ
  max_rooms : ℤ
  lastRoomCenter : ℚ × ℚ
  num_rooms : ℕ
  num_tiles : ℕ
  lastRoomCoords : Option (ℚ × ℚ)
  draws : ℕ
  calls : List Call

/-- The loop `for (var i = lo; i < hi; i += step) body`, threading the state
through the body.  It is total for a positive step. -/
def forLoop {σ : Type} (step : ℚ) (hstep : 0 < step) (body : σ → ℚ → σ)
    (hi : ℚ) (i : ℚ) (s : σ) : σ :=
  if i < hi then forLoop step hstep body hi (i + step) (body s i) else s
termination_by ⌈(hi - i) / step⌉.toNat
decreasing_by
  rename_i hlt
  have h1 : (hi - (i + step)) / step = (hi - i) / step - 1 := by
    field_simp
    ring
  have h2 : 0 < (hi - i) / step := div_pos (sub_pos.mpr hlt) hstep
  have h3 : 0 < ⌈(hi - i) / step⌉ := Int.ceil_pos.mpr h2
  rw [h1, Int.ceil_sub_one]
  omega

/-- Method `getRandom` (map.js lines 49-51):
`Math.floor(Math.random() * (max - min)) + min`, consuming one random value.
The product is taken exactly.  In binary64 arithmetic it is rounded
(`getRandomDouble`), and by `roundDouble_mul_covered` the rounded product is the
exact product for another value of `[0, 1)`, so what holds here for every stream
of values in `[0, 1)` holds for the values the rounded product gives. -/
def getRandom (g : Game) (s : MapState) (min max : ℚ) : ℚ × MapState :=
  ((⌊g.random s.draws * (max - min)⌋ : ℚ) + min, { s with draws := s.draws + 1 })

/-- The object built by `new this.Room(x, y, w, h)` (map.js lines 52-61). -/
structure Room where
  x1 : ℚ
  y1 : ℚ
  x2 : ℚ
  y2 : ℚ
  center_coords : ℚ × ℚ
  deriving DecidableEq, Repr

/-- Constructor `Room` (map.js lines 52-61). -/
def Room.new (x y w h : ℚ) : Room :=
  let x1 := x
  let y1 := y
  let x2 := x + w
  let y2 := y + h
  let center_x := (x1 + x2) / 2
  let center_y := (y1 + y2) / 2
  { x1 := x1, y1 := y1, x2 := x2, y2 := y2, center_coords := (center_x, center_y) }

/-- Method `createFloor` (map.js lines 62-68): one floor sprite is created at
`(x, y)`. -/
def createFloor (s : MapState) (x y : ℚ) : MapState :=
  { s with floors := s.floors ++ [(x, y)] }

/-- Method `createRoom` (map.js lines 69-75). -/
def createRoom (s : MapState) (x1 x2 y1 y2 : ℚ) : MapState :=
  let s := { s with calls := s.calls ++ [Call.createRoom x1 x2 y1 y2] }
  forLoop 16 (by norm_num)
    (fun s x => forLoop 16 (by norm_num) (fun s y => createFloor s x y) y2 y1 s) x2 x1 s

/-- Method `createHTunnel` (map.js lines 76-82). -/
def createHTunnel (s : MapState) (x1 x2 y : ℚ) : MapState :=
  let s := { s with calls := s.calls ++ [Call.createHTunnel x1 x2 y] }
  let min := Min.min x1 x2
  let max := Max.max x1 x2
  forLoop 8 (by norm_num) (fun s x => createFloor s x y) (max + 8) min s

/-- Method `createVTunnel` (map.js lines 83-89). -/
def createVTunnel (s : MapState) (y1 y2 x : ℚ) : MapState :=
  let s := { s with calls := s.calls ++ [Call.createVTunnel y1 y2 x] }
  let min := Min.min y1 y2
  let max := Max.max y1 y2
  forLoop 8 (by norm_num) (fun s y => createFloor s x y) (max + 8) min s

/-- Modelled from the spec: `game.math.snapToFloor` is a function of the Phaser
library, not of this repository; it snaps a value down to the nearest multiple
of the gap (glossary, Snapping: rounding a coordinate down to the nearest
multiple of the wall-tile size). -/
def snapToFloor (input gap : ℚ) : ℚ :=
  gap * (⌊input / gap⌋ : ℚ)

/-- One wall sprite is created at `(x, y)` (map.js lines 93-94). -/
def createWall (s : MapState) (x y : ℚ) : MapState :=
  { s with walls := s.walls ++ [(x, y)] }

/-- The wall-filling loops of `makeMap` (map.js lines 91-96). -/
def fillWalls (g : Game) (s : MapState) : MapState :=
  forLoop 16 (by norm_num)
    (fun s y => forLoop 16 (by norm_num) (fun s x => createWall s x y) g.worldWidth 0 s)
    g.worldHeight 0 s

/-- The body of the room loop of `makeMap` (map.js lines 99-122).  Reading
`this.lastRoomCoords.x` while the field is undefined raises a TypeError.  Line
117 passes `prev_y` to `createHTunnel` a second time; the method has three
parameters, so the fourth argument is dropped. -/
def placeRoom (g : Game) (s : MapState) : Except JSError MapState :=
  let (kw, s) := getRandom g s s.room_min_size s.room_max_size
  let w := kw * 16
  let (kh, s) := getRandom g s s.room_min_size s.room_max_size
  let h := kh * 16
  let (kx, s) := getRandom g s 1 (g.worldWidth / 16 - (w / 16 + 1))
  let x := kx * 16
  let (ky, s) := getRandom g s 1 (g.worldHeight / 16 - (w / 16 + 1))
  let y := ky * 16
  let s := createRoom s x (x + w) y (y + h)
  let r : Except JSError MapState :=
    if s.num_rooms = 0 then
      Except.ok s
    else
      let new_x := snapToFloor (x + w / 2) 16
      let new_y := snapToFloor (y + h / 2) 16
      match s.lastRoomCoords with
      | none => Except.error JSError.typeError
      | some c =>
        let prev_x := snapToFloor c.1 16
        let prev_y := snapToFloor c.2 16
        let s := createHTunnel s prev_x new_x prev_y
        let s := createVTunnel s prev_y new_y new_x
        Except.ok s
  r.map (fun s =>
    { s with lastRoomCoords := some (x + w / 2, y + h / 2), num_rooms := s.num_rooms + 1 })

/-- The room loop of `makeMap` (map.js lines 98-123); an exception raised by an
iteration ends the loop. -/
def roomLoop (g : Game) (s : MapState) : Except JSError MapState :=
  forLoop 1 (by norm_num) (fun acc _ => acc.bind (placeRoom g)) s.max_rooms 0 (Except.ok s)

/-- Method `makeMap` (map.js lines 90-124). -/
def makeMap (g : Game) (s : MapState) : Except JSError MapState :=
  roomLoop g (fillWalls g s)

/-- Constructor `Map` (map.js lines 30-48); the sprite keys `floor` and `wall`
are only handed on to the renderer and are left out. -/
def Map (g : Game) (min_room_size max_room_size max_room_number : ℤ) :
    Except JSError MapState :=
  makeMap g
    { floors := [], walls := [],
      room_min_size := min_room_size, room_max_size := max_room_size,
      max_rooms := max_room_number,
      lastRoomCenter := (0, 0), num_rooms := 0, num_tiles := 0,
      lastRoomCoords := none, draws := 0, calls := [] }

/-- Number of iterations of `for (var i = lo; i < hi; i += step)`. -/
def iterations (step hi lo : ℚ) : ℕ :=
  ⌈(hi - lo) / step⌉.toNat

/-- Positions painted by the loops of `createRoom`, in painting order. -/
def roomTiles (x1 x2 y1 y2 : ℚ) : List (ℚ × ℚ) :=
  (List.range (iterations 16 x2 x1)).flatMap fun (i : ℕ) =>
    (List.range (iterations 16 y2 y1)).map fun (j : ℕ) => (x1 + 16 * (i : ℚ), y1 + 16 * (j : ℚ))

/-- Positions painted by the loop of `createHTunnel`, in painting order. -/
def hTunnelTiles (x1 x2 y : ℚ) : List (ℚ × ℚ) :=
  (List.range (iterations 8 (max x1 x2 + 8) (min x1 x2))).map fun (k : ℕ) =>
    (min x1 x2 + 8 * (k : ℚ), y)

/-- Positions painted by the loop of `createVTunnel`, in painting order. -/
def vTunnelTiles (y1 y2 x : ℚ) : List (ℚ × ℚ) :=
  (List.range (iterations 8 (max y1 y2 + 8) (min y1 y2))).map fun (k : ℕ) =>
    (x, min y1 y2 + 8 * (k : ℚ))

/-- Positions of the wall tiles created by the loops of `fillWalls`, in
creation order. -/
def wallTiles (g : Game) : List (ℚ × ℚ) :=
  (List.range (iterations 16 g.worldHeight 0)).flatMap fun (j : ℕ) =>
    (List.range (iterations 16 g.worldWidth 0)).map fun (i : ℕ) => (0 + 16 * (i : ℚ), 0 + 16 * (j : ℚ))

/-- Positions painted by one call of a painting method. -/
def Call.tiles : Call → List (ℚ × ℚ)
  | Call.createRoom x1 x2 y1 y2 => roomTiles x1 x2 y1 y2
  | Call.createHTunnel x1 x2 y => hTunnelTiles x1 x2 y
  | Call.createVTunnel y1 y2 x => vTunnelTiles y1 y2 x

/-- Width of the room whose first random value has index `d`
(map.js line 99). -/
def roomW (g : Game) (lo hi : ℤ) (d : ℕ) : ℚ :=
  ((⌊g.random d * ((hi : ℚ) - (lo : ℚ))⌋ : ℚ) + (lo : ℚ)) * 16

/-- Height of the room whose first random value has index `d`
(map.js line 100). -/
def roomH (g : Game) (lo hi : ℤ) (d : ℕ) : ℚ :=
  ((⌊g.random (d + 1) * ((hi : ℚ) - (lo : ℚ))⌋ : ℚ) + (lo : ℚ)) * 16

/-- Left edge of the room whose first random value has index `d`
(map.js line 102). -/
def roomX (g : Game) (lo hi : ℤ) (d : ℕ) : ℚ :=
  ((⌊g.random (d + 2) * (g.worldWidth / 16 - (roomW g lo hi d / 16 + 1) - 1)⌋ : ℚ) + 1) * 16

/-- Top edge of the room whose first random value has index `d`
(map.js line 103). -/
def roomY (g : Game) (lo hi : ℤ) (d : ℕ) : ℚ :=
  ((⌊g.random (d + 3) * (g.worldHeight / 16 - (roomW g lo hi d / 16 + 1) - 1)⌋ : ℚ) + 1) * 16

/-- Centre recorded in `lastRoomCoords` for the room whose first random value
has index `d` (map.js line 121). -/
def roomCentre (g : Game) (lo hi : ℤ) (d : ℕ) : ℚ × ℚ :=
  (roomX g lo hi d + roomW g lo hi d / 2, roomY g lo hi d + roomH g lo hi d / 2)

/-- The `createRoom` call of the room whose first random value has index `d`
(map.js line 105). -/
def roomCall (g : Game) (lo hi : ℤ) (d : ℕ) : Call :=
  Call.createRoom (roomX g lo hi d) (roomX g lo hi d + roomW g lo hi d)
    (roomY g lo hi d) (roomY g lo hi d + roomH g lo hi d)

/-- The two tunnel calls that join a room with recorded centre `c` to the room
whose first random value has index `d` (map.js lines 111-118). -/
def tunnelCalls (g : Game) (lo hi : ℤ) (c : ℚ × ℚ) (d : ℕ) : List Call :=
  [Call.createHTunnel (snapToFloor c.1 16) (snapToFloor (roomCentre g lo hi d).1 16)
      (snapToFloor c.2 16),
   Call.createVTunnel (snapToFloor c.2 16) (snapToFloor (roomCentre g lo hi d).2 16)
      (snapToFloor (roomCentre g lo hi d).1 16)]

/-- Painting calls made by iteration `k` (counted from 0) of the room loop when
the loop starts with `d0` random values already drawn. -/
def iterationCalls (g : Game) (lo hi : ℤ) (d0 k : ℕ) : List Call :=
  roomCall g lo hi (d0 + 4 * k) ::
    (if k = 0 then [] else tunnelCalls g lo hi (roomCentre g lo hi (d0 + 4 * (k - 1))) (d0 + 4 * k))

/-- State reached from `s` after `n` iterations of the room loop. -/
def afterRooms (g : Game) (s : MapState) (n : ℕ) : MapState :=
  { s with
    draws := s.draws + 4 * n
    calls := s.calls ++
      (List.range n).flatMap (iterationCalls g s.room_min_size s.room_max_size s.draws)
    floors := s.floors ++
      ((List.range n).flatMap
        (iterationCalls g s.room_min_size s.room_max_size s.draws)).flatMap Call.tiles
    num_rooms := s.num_rooms + n
    lastRoomCoords :=
      if n = 0 then s.lastRoomCoords
      else some (roomCentre g s.room_min_size s.room_max_size (s.draws + 4 * (n - 1))) }

/-- Whether a logged call is a call of `createRoom`. -/
def Call.isRoom : Call → Bool
  | Call.createRoom _ _ _ _ => true
  | _ => false

/-- Whether a logged call is a call of `createHTunnel`. -/
def Call.isHTunnel : Call → Bool
  | Call.createHTunnel _ _ _ => true
  | _ => false

/-- Whether a logged call is a call of `createVTunnel`. -/
def Call.isVTunnel : Call → Bool
  | Call.createVTunnel _ _ _ => true
  | _ => false

/-- A sample environment: a 640 x 320 world in which `Math.random()` always
returns one half. -/
def sampleGame : Game :=
  { worldWidth := 640, worldHeight := 320, random := fun _ => 1 / 2 }

/-- A 640 x 320 world in which `Math.random()` returns 0, 9/10, 0, 99/100 and
then 0 for ever. -/
def tallRoomGame : Game :=
  { worldWidth := 640, worldHeight := 320,
    random := fun d => if d = 1 then 9 / 10 else if d = 3 then 99 / 100 else 0 }

/-- A 32 x 32 world in which `Math.random()` always returns 0. -/
def smallGame : Game :=
  { worldWidth := 32, worldHeight := 32, random := fun _ => 0 }

/-- A 600 x 300 world, the size named in the header comment of map.js, in which
`Math.random()` returns 0, 0, 99/100 and then 0 for ever. -/
def wideGame : Game :=
  { worldWidth := 600, worldHeight := 300,
    random := fun d => if d = 2 then 99 / 100 else 0 }

/-- A map object on which one room has been placed, with recorded centre
`(40, 40)`. -/
def sampleState : MapState :=
  { floors := [], walls := [], room_min_size := 2, room_max_size := 5, max_rooms := 3,
    lastRoomCenter := (0, 0), num_rooms := 1, num_tiles := 0,
    lastRoomCoords := some (40, 40), draws := 4, calls := [] }

/-- Rounding of a rational to the nearest integer, a tie going to the even
neighbour. -/
def roundHalfEven (q : ℚ) : ℤ :=
  if q - (⌊q⌋ : ℚ) < 1 / 2 then ⌊q⌋
  else if 1 / 2 < q - (⌊q⌋ : ℚ) then ⌊q⌋ + 1
  else if ⌊q⌋ % 2 = 0 then ⌊q⌋ else ⌊q⌋ + 1

/-- Exponent `e` of the binade `[2^e, 2^(e+1))` in which a binary64 value lies;
the subnormal values share the least exponent, -1022. -/
def binade (x : ℚ) : ℤ :=
  max (Int.log 2 |x|) (-1022)

/-- Rounding to the nearest binary64 number, ties to even: the rounding that
JavaScript applies to the exact result of an arithmetic operation on numbers.
The significand has 53 bits, so the numbers of the binade of `x` are the
multiples of `2^(binade x - 52)`.  Overflow to Infinity is not represented. -/
def roundDouble (x : ℚ) : ℚ :=
  (roundHalfEven (x / 2 ^ (binade x - 52)) : ℚ) * 2 ^ (binade x - 52)

/-- Method `getRandom` (map.js line 50) in binary64 arithmetic, for a value `r`
returned by `Math.random()`: the difference, the product and the sum are each
rounded; `Math.floor` of a binary64 number is exact. -/
def getRandomDouble (r min max : ℚ) : ℚ :=
  roundDouble ((⌊roundDouble (r * roundDouble (max - min))⌋ : ℚ) + min)

/-! ## The for loop -/

theorem forLoop_of_lt {σ : Type} (step : ℚ) (hstep : 0 < step) (body : σ → ℚ → σ)
    (hi i : ℚ) (s : σ) (h : i < hi) :
    forLoop step hstep body hi i s = forLoop step hstep body hi (i + step) (body s i) := by
  rw [forLoop, if_pos h]

theorem forLoop_of_le {σ : Type} (step : ℚ) (hstep : 0 < step) (body : σ → ℚ → σ)
    (hi i : ℚ) (s : σ) (h : hi ≤ i) :
    forLoop step hstep body hi i s = s := by
  rw [forLoop, if_neg (not_lt.mpr h)]

/-- A loop that passes its test exactly `n` times is the fold of its body over
the `n` successive values of the loop variable. -/
theorem forLoop_count {σ : Type} (step : ℚ) (hstep : 0 < step) (body : σ → ℚ → σ) (hi : ℚ)
    (n : ℕ) : ∀ (i : ℚ) (s : σ), (∀ k < n, i + step * (k : ℚ) < hi) →
      hi ≤ i + step * (n : ℚ) →
      forLoop step hstep body hi i s
        = (List.range n).foldl (fun acc (k : ℕ) => body acc (i + step * (k : ℚ))) s := by
  induction n with
  | zero =>
    intro i s _ hle
    simp only [Nat.cast_zero, mul_zero, add_zero] at hle
    simp [forLoop_of_le step hstep body hi i s hle]
  | succ n ih =>
    intro i s hlt hle
    have h0 : i < hi := by simpa using hlt 0 (Nat.succ_pos n)
    rw [forLoop_of_lt step hstep body hi i s h0, ih (i + step) (body s i)]
    · rw [List.range_succ_eq_map, List.foldl_cons, List.foldl_map]
      simp only [Nat.cast_zero, mul_zero, add_zero, Nat.succ_eq_add_one, Nat.cast_add,
        Nat.cast_one]
      congr 1
      funext acc k
      congr 1
      ring
    · intro k hk
      have := hlt (k + 1) (Nat.succ_lt_succ hk)
      push_cast at this
      linarith
    · push_cast at hle
      linarith

theorem iterations_spec_lt (step : ℚ) (hstep : 0 < step) (hi lo : ℚ) (k : ℕ)
    (hk : k < iterations step hi lo) : lo + step * (k : ℚ) < hi := by
  unfold iterations at hk
  have h1 : (k : ℤ) < ⌈(hi - lo) / step⌉ := by omega
  have h2 : ((k : ℤ) : ℚ) < (hi - lo) / step := Int.lt_ceil.mp h1
  rw [lt_div_iff₀ hstep] at h2
  push_cast at h2
  linarith

theorem iterations_spec_le (step : ℚ) (hstep : 0 < step) (hi lo : ℚ) :
    hi ≤ lo + step * (iterations step hi lo : ℚ) := by
  unfold iterations
  have h1 : ⌈(hi - lo) / step⌉ ≤ ((⌈(hi - lo) / step⌉.toNat : ℕ) : ℤ) := Int.self_le_toNat _
  have h2 : (hi - lo) / step ≤ ((⌈(hi - lo) / step⌉.toNat : ℕ) : ℚ) := by
    have := Int.ceil_le.mp h1
    exact_mod_cast this
  rw [div_le_iff₀ hstep] at h2
  linarith

/-- Every for loop is the fold of its body over its `iterations` values. -/
theorem forLoop_eq_foldl {σ : Type} (step : ℚ) (hstep : 0 < step) (body : σ → ℚ → σ)
    (hi i : ℚ) (s : σ) :
    forLoop step hstep body hi i s
      = (List.range (iterations step hi i)).foldl
          (fun acc (k : ℕ) => body acc (i + step * (k : ℚ))) s :=
  forLoop_count step hstep body hi _ i s
    (fun k hk => iterations_spec_lt step hstep hi i k hk)
    (iterations_spec_le step hstep hi i)

/-- The number of iterations is determined by the two loop tests. -/
theorem iterations_eq (step : ℚ) (hstep : 0 < step) (hi lo : ℚ) (n : ℕ)
    (hlt : ∀ k < n, lo + step * (k : ℚ) < hi) (hle : hi ≤ lo + step * (n : ℚ)) :
    iterations step hi lo = n := by
  apply le_antisymm
  · by_contra hc
    have := iterations_spec_lt step hstep hi lo n (not_le.mp hc)
    linarith
  · by_contra hc
    have h1 := hlt _ (not_le.mp hc)
    have h2 := iterations_spec_le step hstep hi lo
    linarith

/-! ## The painting methods in closed form -/

theorem foldl_appendFloors (F : ℕ → List (ℚ × ℚ)) (l : List ℕ) :
    ∀ s : MapState, l.foldl (fun acc k => { acc with floors := acc.floors ++ F k }) s
      = { s with floors := s.floors ++ l.flatMap F } := by
  induction l with
  | nil => intro s; simp
  | cons a l ih => intro s; simp [ih, List.flatMap_cons, List.append_assoc]

theorem foldl_appendWalls (F : ℕ → List (ℚ × ℚ)) (l : List ℕ) :
    ∀ s : MapState, l.foldl (fun acc k => { acc with walls := acc.walls ++ F k }) s
      = { s with walls := s.walls ++ l.flatMap F } := by
  induction l with
  | nil => intro s; simp
  | cons a l ih => intro s; simp [ih, List.flatMap_cons, List.append_assoc]

theorem flatMap_singleton_eq_map {α β : Type} (f : α → β) (l : List α) :
    l.flatMap (fun k => [f k]) = l.map f := by
  induction l with
  | nil => rfl
  | cons a l ih => simp [List.flatMap_cons, ih]

theorem createRoom_eq (s : MapState) (x1 x2 y1 y2 : ℚ) :
    createRoom s x1 x2 y1 y2
      = { s with calls := s.calls ++ [Call.createRoom x1 x2 y1 y2],
                 floors := s.floors ++ roomTiles x1 x2 y1 y2 } := by
  simp only [createRoom, forLoop_eq_foldl, createFloor, foldl_appendFloors,
    flatMap_singleton_eq_map, roomTiles]

theorem createHTunnel_eq (s : MapState) (x1 x2 y : ℚ) :
    createHTunnel s x1 x2 y
      = { s with calls := s.calls ++ [Call.createHTunnel x1 x2 y],
                 floors := s.floors ++ hTunnelTiles x1 x2 y } := by
  simp only [createHTunnel, forLoop_eq_foldl, createFloor, foldl_appendFloors,
    flatMap_singleton_eq_map, hTunnelTiles]

theorem createVTunnel_eq (s : MapState) (y1 y2 x : ℚ) :
    createVTunnel s y1 y2 x
      = { s with calls := s.calls ++ [Call.createVTunnel y1 y2 x],
                 floors := s.floors ++ vTunnelTiles y1 y2 x } := by
  simp only [createVTunnel, forLoop_eq_foldl, createFloor, foldl_appendFloors,
    flatMap_singleton_eq_map, vTunnelTiles]

theorem fillWalls_eq (g : Game) (s : MapState) :
    fillWalls g s = { s with walls := s.walls ++ wallTiles g } := by
  simp only [fillWalls, forLoop_eq_foldl, createWall, foldl_appendWalls,
    flatMap_singleton_eq_map, wallTiles]

/-! ## One iteration of the room loop -/

theorem placeRoom_first (g : Game) (s : MapState) (h0 : s.num_rooms = 0) :
    placeRoom g s = Except.ok
      { s with
        draws := s.draws + 4
        calls := s.calls ++ [roomCall g s.room_min_size s.room_max_size s.draws]
        floors := s.floors ++ (roomCall g s.room_min_size s.room_max_size s.draws).tiles
        num_rooms := s.num_rooms + 1
        lastRoomCoords := some (roomCentre g s.room_min_size s.room_max_size s.draws) } := by
  simp only [placeRoom, getRandom, createRoom_eq, h0, if_true, Except.map, roomCall, Call.tiles,
    roomCentre, roomX, roomY, roomW, roomH]

theorem placeRoom_next (g : Game) (s : MapState) (c : ℚ × ℚ) (h0 : s.num_rooms ≠ 0)
    (hc : s.lastRoomCoords = some c) :
    placeRoom g s = Except.ok
      { s with
        draws := s.draws + 4
        calls := s.calls ++ (roomCall g s.room_min_size s.room_max_size s.draws ::
          tunnelCalls g s.room_min_size s.room_max_size c s.draws)
        floors := s.floors ++ (roomCall g s.room_min_size s.room_max_size s.draws ::
          tunnelCalls g s.room_min_size s.room_max_size c s.draws).flatMap Call.tiles
        num_rooms := s.num_rooms + 1
        lastRoomCoords := some (roomCentre g s.room_min_size s.room_max_size s.draws) } := by
  simp only [placeRoom, getRandom, createRoom_eq, createHTunnel_eq, createVTunnel_eq, h0,
    if_false, hc, Except.map, roomCall, tunnelCalls, Call.tiles, roomCentre, roomX, roomY,
    roomW, roomH, List.flatMap_cons, List.flatMap_nil, List.append_nil, List.append_assoc,
    List.cons_append, List.nil_append, List.singleton_append]

theorem placeRoom_afterRooms (g : Game) (s : MapState) (h0 : s.num_rooms = 0) (n : ℕ) :
    placeRoom g (afterRooms g s n) = Except.ok (afterRooms g s (n + 1)) := by
  rcases Nat.eq_zero_or_pos n with hn | hn
  · subst hn
    rw [placeRoom_first g _ (by simp [afterRooms, h0])]
    simp [afterRooms, iterationCalls, List.range_succ]
  · have hne : n ≠ 0 := Nat.pos_iff_ne_zero.mp hn
    rw [placeRoom_next g _
      (roomCentre g s.room_min_size s.room_max_size (s.draws + 4 * (n - 1)))
      (by simp [afterRooms, h0, hne]) (by simp [afterRooms, hne])]
    simp [afterRooms, iterationCalls, List.range_succ, hne, List.flatMap_append,
      Nat.mul_add, Nat.add_assoc, List.flatMap_cons]

theorem foldl_placeRoom (g : Game) (s : MapState) (h0 : s.num_rooms = 0) (n : ℕ) :
    (List.range n).foldl (fun acc (_ : ℕ) => acc.bind (placeRoom g)) (Except.ok s)
      = Except.ok (afterRooms g s n) := by
  induction n with
  | zero => simp [afterRooms]
  | succ n ih =>
    rw [List.range_succ, List.foldl_append, ih]
    simp only [List.foldl_cons, List.foldl_nil]
    exact placeRoom_afterRooms g s h0 n

theorem iterations_one (z : ℤ) : iterations 1 (z : ℚ) 0 = z.toNat := by
  simp [iterations]

/-- The room loop always completes: it runs `max_rooms` iterations (none when
`max_rooms` is negative) and ends in the state `afterRooms`. -/
theorem roomLoop_eq (g : Game) (s : MapState) (h0 : s.num_rooms = 0) :
    roomLoop g s = Except.ok (afterRooms g s s.max_rooms.toNat) := by
  unfold roomLoop
  rw [forLoop_eq_foldl, iterations_one]
  exact foldl_placeRoom g s h0 _

/-- The constructor always completes; its result is the state after the wall
fill followed by `max_room_number` iterations of the room loop. -/
theorem Map_eq (g : Game) (lo hi n : ℤ) :
    Map g lo hi n = Except.ok
      { floors := (((List.range n.toNat).flatMap (iterationCalls g lo hi 0)).flatMap Call.tiles),
        walls := wallTiles g,
        room_min_size := lo, room_max_size := hi, max_rooms := n,
        lastRoomCenter := (0, 0), num_rooms := n.toNat, num_tiles := 0,
        lastRoomCoords :=
          if n.toNat = 0 then none else some (roomCentre g lo hi (4 * (n.toNat - 1))),
        draws := 4 * n.toNat,
        calls := (List.range n.toNat).flatMap (iterationCalls g lo hi 0) } := by
  unfold Map makeMap
  rw [roomLoop_eq g _ (by simp [fillWalls_eq])]
  simp [afterRooms, fillWalls_eq]

/-! ## Grids of tiles -/

/-- A doubly indexed list without repetitions: it lists each `F i j` with
`i < m` and `j < n` once. -/
theorem grid_list {α : Type} (F : ℕ → ℕ → α)
    (hF : ∀ a b c d, F a b = F c d → a = c ∧ b = d) (m n : ℕ) :
    ((List.range m).flatMap fun (i : ℕ) => (List.range n).map (F i)).Nodup ∧
    ((List.range m).flatMap fun (i : ℕ) => (List.range n).map (F i)).length = m * n ∧
    ∀ p, p ∈ ((List.range m).flatMap fun (i : ℕ) => (List.range n).map (F i)) ↔
      ∃ i j, i < m ∧ j < n ∧ p = F i j := by
  have heq : ((List.range m).flatMap fun (i : ℕ) => (List.range n).map (F i))
      = (List.product (List.range m) (List.range n)).map (fun p => F p.1 p.2) := by
    simp [List.product, List.map_flatMap]
    rfl
  have hinj : Function.Injective (fun p : ℕ × ℕ => F p.1 p.2) := by
    intro p q hpq
    have := hF _ _ _ _ hpq
    exact Prod.ext this.1 this.2
  rw [heq]
  refine ⟨List.Nodup.map hinj (List.Nodup.product (List.nodup_range m) (List.nodup_range n)),
    by rw [List.length_map]
       exact (List.length_product _ _).trans (by simp), ?_⟩
  intro p
  simp only [List.mem_map, Prod.exists, List.pair_mem_product, List.mem_range]
  constructor
  · rintro ⟨i, j, ⟨hi, hj⟩, rfl⟩
    exact ⟨i, j, hi, hj, rfl⟩
  · rintro ⟨i, j, hi, hj, rfl⟩
    exact ⟨i, j, ⟨hi, hj⟩, rfl⟩

theorem iterations_mul (step : ℚ) (hstep : 0 < step) (lo : ℚ) (n : ℕ) :
    iterations step (lo + step * (n : ℚ)) lo = n := by
  apply iterations_eq step hstep
  · intro k hk
    have : (k : ℚ) < (n : ℚ) := by exact_mod_cast hk
    have := mul_lt_mul_of_pos_left this hstep
    linarith
  · exact le_refl _

theorem roomTiles_grid (x y : ℚ) (m n : ℕ) :
    roomTiles x (x + 16 * (m : ℚ)) y (y + 16 * (n : ℚ))
      = (List.range m).flatMap fun (i : ℕ) =>
          (List.range n).map fun (j : ℕ) => (x + 16 * (i : ℚ), y + 16 * (j : ℚ)) := by
  unfold roomTiles
  rw [iterations_mul 16 (by norm_num), iterations_mul 16 (by norm_num)]

theorem wallTiles_grid (m n : ℕ) (rnd : ℕ → ℚ) :
    wallTiles { worldWidth := 16 * (m : ℚ), worldHeight := 16 * (n : ℚ), random := rnd }
      = (List.range n).flatMap fun (j : ℕ) =>
          (List.range m).map fun (i : ℕ) => (16 * (i : ℚ), 16 * (j : ℚ)) := by
  unfold wallTiles
  have hm := iterations_mul 16 (by norm_num) 0 m
  have hn := iterations_mul 16 (by norm_num) 0 n
  simp only [zero_add] at hm hn ⊢
  rw [hm, hn]

/-! ## Rooms -/

/-- C1: for every origin `(x, y)` and extent `w = 16 m`, `h = 16 n`,
`createRoom(x, x+w, y, y+h)` creates floor tiles at exactly the positions
`(x + 16 i, y + 16 j)` with `i < m = w/16` and `j < n = h/16`: each of them
once, none outside `[x, x+w) × [y, y+h)`, hence `(w/16) * (h/16)` tiles. -/
theorem createRoom_paints_rectangle (s : MapState) (x y : ℚ) (m n : ℕ) :
    ∃ tiles : List (ℚ × ℚ),
      (createRoom s x (x + 16 * (m : ℚ)) y (y + 16 * (n : ℚ))).floors = s.floors ++ tiles ∧
      (∀ p, p ∈ tiles ↔ ∃ i j : ℕ, i < m ∧ j < n ∧ p = (x + 16 * (i : ℚ), y + 16 * (j : ℚ))) ∧
      tiles.Nodup ∧
      (∀ p ∈ tiles, x ≤ p.1 ∧ p.1 < x + 16 * (m : ℚ) ∧ y ≤ p.2 ∧ p.2 < y + 16 * (n : ℚ)) ∧
      tiles.length = m * n := by
  have hg := grid_list (fun (i j : ℕ) => (x + 16 * (i : ℚ), y + 16 * (j : ℚ)))
    (by
      intro a b c d habcd
      simp only [Prod.mk.injEq, add_right_inj, mul_eq_mul_left_iff, Nat.cast_inj,
        OfNat.ofNat_ne_zero, or_false] at habcd
      exact habcd) m n
  refine ⟨roomTiles x (x + 16 * (m : ℚ)) y (y + 16 * (n : ℚ)), ?_, ?_, ?_, ?_, ?_⟩
  · rw [createRoom_eq]
  · rw [roomTiles_grid]; exact hg.2.2
  · rw [roomTiles_grid]; exact hg.1
  · rw [roomTiles_grid]
    intro p hp
    obtain ⟨i, j, hi, hj, rfl⟩ := (hg.2.2 p).mp hp
    have hi' : (i : ℚ) + 1 ≤ (m : ℚ) := by exact_mod_cast hi
    have hj' : (j : ℚ) + 1 ≤ (n : ℚ) := by exact_mod_cast hj
    have hi0 : (0 : ℚ) ≤ (i : ℚ) := Nat.cast_nonneg i
    have hj0 : (0 : ℚ) ≤ (j : ℚ) := Nat.cast_nonneg j
    refine ⟨?_, ?_, ?_, ?_⟩ <;> simp only <;> linarith
  · rw [roomTiles_grid]; exact hg.2.1

/-! ## The wall grid -/

/-- C6: for a world of width `W = 16 m` and height `H = 16 n` the wall-filling
step creates exactly one wall tile at each `(16 i, 16 j)` with `i < m = W/16`
and `j < n = H/16` and nowhere else, a grid of `m` columns by `n` rows; it
places no room (no floor tile, no painting call, no random draw), and the room
loop that follows leaves the walls as they are. -/
theorem fillWalls_paints_grid (s : MapState) (m n : ℕ) (rnd : ℕ → ℚ) :
    ∃ tiles : List (ℚ × ℚ),
      (fillWalls { worldWidth := 16 * (m : ℚ), worldHeight := 16 * (n : ℚ), random := rnd } s).walls
        = s.walls ++ tiles ∧
      (∀ p, p ∈ tiles ↔ ∃ i j : ℕ, i < m ∧ j < n ∧ p = (16 * (i : ℚ), 16 * (j : ℚ))) ∧
      tiles.Nodup ∧
      tiles.length = m * n ∧
      (fillWalls { worldWidth := 16 * (m : ℚ), worldHeight := 16 * (n : ℚ), random := rnd } s).floors
        = s.floors ∧
      (fillWalls { worldWidth := 16 * (m : ℚ), worldHeight := 16 * (n : ℚ), random := rnd } s).calls
        = s.calls ∧
      (fillWalls { worldWidth := 16 * (m : ℚ), worldHeight := 16 * (n : ℚ), random := rnd } s).draws
        = s.draws ∧
      ∀ lo hi N : ℤ, ∃ s' : MapState,
        Map { worldWidth := 16 * (m : ℚ), worldHeight := 16 * (n : ℚ), random := rnd } lo hi N
          = Except.ok s' ∧ s'.walls = tiles := by
  have hg := grid_list (fun (j i : ℕ) => ((16 : ℚ) * (i : ℚ), (16 : ℚ) * (j : ℚ)))
    (by
      intro a b c d habcd
      simp only [Prod.mk.injEq, mul_eq_mul_left_iff, Nat.cast_inj,
        OfNat.ofNat_ne_zero, or_false] at habcd
      exact ⟨habcd.2, habcd.1⟩) n m
  refine ⟨wallTiles { worldWidth := 16 * (m : ℚ), worldHeight := 16 * (n : ℚ), random := rnd },
    ?_, ?_, ?_, ?_, ?_, ?_, ?_, ?_⟩
  · rw [fillWalls_eq]
  · rw [wallTiles_grid]
    intro p
    rw [hg.2.2 p]
    constructor
    · rintro ⟨j, i, hj, hi, rfl⟩
      exact ⟨i, j, hi, hj, rfl⟩
    · rintro ⟨i, j, hi, hj, rfl⟩
      exact ⟨j, i, hj, hi, rfl⟩
  · rw [wallTiles_grid]; exact hg.1
  · rw [wallTiles_grid, hg.2.1, Nat.mul_comm]
  · rw [fillWalls_eq]
  · rw [fillWalls_eq]
  · rw [fillWalls_eq]
  · intro lo hi N
    exact ⟨_, Map_eq _ lo hi N, rfl⟩

/-- C7: for every world size and every room size bounds, `max_rooms = 0` yields
an all-wall grid: the walls are those of the wall fill, no floor tile is
created, no painting method is called, no random value is drawn and `num_rooms`
stays 0. -/
theorem zero_rooms_all_wall (g : Game) (lo hi : ℤ) :
    ∃ s : MapState, Map g lo hi 0 = Except.ok s ∧
      s.walls = wallTiles g ∧ s.floors = [] ∧ s.calls = [] ∧ s.draws = 0 ∧ s.num_rooms = 0 := by
  refine ⟨_, Map_eq g lo hi 0, ?_⟩
  simp

/-! ## Random draws -/

theorem floor_mul_nonneg (r c : ℚ) (hr : 0 ≤ r) (hc : 0 ≤ c) : 0 ≤ ⌊r * c⌋ :=
  Int.floor_nonneg.mpr (mul_nonneg hr hc)

theorem floor_mul_lt (r : ℚ) (c : ℤ) (hr : r < 1) (hc : 0 < c) : ⌊r * (c : ℚ)⌋ < c := by
  apply Int.floor_lt.mpr
  have hc' : (0 : ℚ) < (c : ℚ) := by exact_mod_cast hc
  nlinarith

theorem floor_mul_le (r c : ℚ) (hr : r < 1) (hc : 0 ≤ c) : (⌊r * c⌋ : ℚ) ≤ c := by
  have h1 : (⌊r * c⌋ : ℚ) ≤ r * c := Int.floor_le _
  nlinarith

theorem floor_mul_neg_ge (r : ℚ) (c : ℤ) (hr0 : 0 ≤ r) (hr1 : r < 1) (hc : c < 0) :
    c ≤ ⌊r * (c : ℚ)⌋ ∧ ⌊r * (c : ℚ)⌋ ≤ 0 := by
  have hc' : (c : ℚ) < 0 := by exact_mod_cast hc
  constructor
  · apply Int.le_floor.mpr
    nlinarith
  · have h1 : (⌊r * (c : ℚ)⌋ : ℚ) ≤ r * c := Int.floor_le _
    have h2 : (⌊r * (c : ℚ)⌋ : ℚ) ≤ 0 := by nlinarith
    exact_mod_cast h2

/-- A drawn size with `lo < hi`: the factor of 16 lies in `[lo, hi)`. -/
theorem size_draw_lt (r : ℚ) (lo hi : ℤ) (hr0 : 0 ≤ r) (hr1 : r < 1) (hlt : lo < hi) :
    ∃ k : ℤ, lo ≤ k ∧ k < hi ∧
      ((⌊r * ((hi : ℚ) - (lo : ℚ))⌋ : ℚ) + (lo : ℚ)) = (k : ℚ) := by
  have hcast : (hi : ℚ) - (lo : ℚ) = ((hi - lo : ℤ) : ℚ) := by push_cast; ring
  have h1 := floor_mul_nonneg r ((hi : ℚ) - (lo : ℚ)) hr0
    (by rw [hcast]; exact_mod_cast (by omega : (0 : ℤ) ≤ hi - lo))
  have h2 := floor_mul_lt r (hi - lo) hr1 (by omega)
  rw [← hcast] at h2
  refine ⟨⌊r * ((hi : ℚ) - (lo : ℚ))⌋ + lo, by omega, by omega, by push_cast; ring⟩

/-- A drawn size with `lo = hi`: the factor of 16 is that value. -/
theorem size_draw_eq (r : ℚ) (m : ℤ) :
    ((⌊r * ((m : ℚ) - (m : ℚ))⌋ : ℚ) + (m : ℚ)) = (m : ℚ) := by
  simp

/-- A drawn size with `hi < lo`: the factor of 16 lies in `[hi, lo]`. -/
theorem size_draw_gt (r : ℚ) (lo hi : ℤ) (hr0 : 0 ≤ r) (hr1 : r < 1) (hgt : hi < lo) :
    ∃ k : ℤ, hi ≤ k ∧ k ≤ lo ∧
      ((⌊r * ((hi : ℚ) - (lo : ℚ))⌋ : ℚ) + (lo : ℚ)) = (k : ℚ) := by
  have hcast : (hi : ℚ) - (lo : ℚ) = ((hi - lo : ℤ) : ℚ) := by push_cast; ring
  have h := floor_mul_neg_ge r (hi - lo) hr0 hr1 (by omega)
  rw [← hcast] at h
  refine ⟨⌊r * ((hi : ℚ) - (lo : ℚ))⌋ + lo, by omega, by omega, by push_cast; ring⟩

/-! ## The calls of a run -/

theorem mem_iterationCalls_room (g : Game) (lo hi : ℤ) (d0 n : ℕ) (x1 x2 y1 y2 : ℚ)
    (h : Call.createRoom x1 x2 y1 y2 ∈ (List.range n).flatMap (iterationCalls g lo hi d0)) :
    ∃ k, k < n ∧ Call.createRoom x1 x2 y1 y2 = roomCall g lo hi (d0 + 4 * k) := by
  rw [List.mem_flatMap] at h
  obtain ⟨k, hk, hmem⟩ := h
  refine ⟨k, List.mem_range.mp hk, ?_⟩
  unfold iterationCalls at hmem
  rcases List.mem_cons.mp hmem with h1 | h1
  · exact h1
  · split at h1
    · simp at h1
    · simp [tunnelCalls] at h1

theorem filter_isRoom_calls (g : Game) (lo hi : ℤ) (d0 n : ℕ) :
    ((List.range n).flatMap (iterationCalls g lo hi d0)).filter Call.isRoom
      = (List.range n).map fun (k : ℕ) => roomCall g lo hi (d0 + 4 * k) := by
  induction n with
  | zero => simp
  | succ n ih =>
    rw [List.range_succ, List.flatMap_append, List.filter_append, ih, List.map_append]
    congr 1
    by_cases hn : n = 0
    · simp [iterationCalls, hn, roomCall, Call.isRoom]
    · simp [iterationCalls, hn, roomCall, tunnelCalls, Call.isRoom]

/-- Every `createRoom` call of a run of the constructor is the call of one of
its `max_room_number` iterations. -/
theorem Map_rooms (g : Game) (lo hi N : ℤ) :
    ∃ s : MapState, Map g lo hi N = Except.ok s ∧
      s.walls = wallTiles g ∧
      s.calls = (List.range N.toNat).flatMap (iterationCalls g lo hi 0) ∧
      (s.calls.filter Call.isRoom).length = N.toNat ∧
      ∀ x1 x2 y1 y2, Call.createRoom x1 x2 y1 y2 ∈ s.calls →
        ∃ k, k < N.toNat ∧ Call.createRoom x1 x2 y1 y2 = roomCall g lo hi (0 + 4 * k) := by
  refine ⟨_, Map_eq g lo hi N, rfl, rfl, ?_, ?_⟩
  · simp only [filter_isRoom_calls, List.length_map, List.length_range]
  · intro x1 x2 y1 y2 h
    exact mem_iterationCalls_room g lo hi 0 _ x1 x2 y1 y2 h

theorem roomCall_eq (g : Game) (lo hi : ℤ) (d : ℕ) (x1 x2 y1 y2 : ℚ)
    (h : Call.createRoom x1 x2 y1 y2 = roomCall g lo hi d) :
    x1 = roomX g lo hi d ∧ x2 = roomX g lo hi d + roomW g lo hi d ∧
      y1 = roomY g lo hi d ∧ y2 = roomY g lo hi d + roomH g lo hi d := by
  unfold roomCall at h
  injection h with h1 h2 h3 h4
  exact ⟨h1, h2, h3, h4⟩

theorem wallTiles_length (g : Game) (m n : ℕ) (hW : g.worldWidth = 16 * (m : ℚ))
    (hH : g.worldHeight = 16 * (n : ℚ)) : (wallTiles g).length = m * n := by
  obtain ⟨W, H, rnd⟩ := g
  simp only at hW hH
  subst hW hH
  have hg := grid_list (fun (j i : ℕ) => ((16 : ℚ) * (i : ℚ), (16 : ℚ) * (j : ℚ)))
    (by
      intro a b c d habcd
      simp only [Prod.mk.injEq, mul_eq_mul_left_iff, Nat.cast_inj,
        OfNat.ofNat_ne_zero, or_false] at habcd
      exact ⟨habcd.2, habcd.1⟩) n m
  rw [wallTiles_grid, hg.2.1, Nat.mul_comm]

theorem roomTiles_length (x x2 y y2 : ℚ) (m n : ℕ) (hx : x2 = x + 16 * (m : ℚ))
    (hy : y2 = y + 16 * (n : ℚ)) : (roomTiles x x2 y y2).length = m * n := by
  subst hx hy
  have hg := grid_list (fun (i j : ℕ) => (x + 16 * (i : ℚ), y + 16 * (j : ℚ)))
    (by
      intro a b c d habcd
      simp only [Prod.mk.injEq, add_right_inj, mul_eq_mul_left_iff, Nat.cast_inj,
        OfNat.ofNat_ne_zero, or_false] at habcd
      exact habcd) m n
  rw [roomTiles_grid]
  exact hg.2.1

theorem iterations_pos (step : ℚ) (hstep : 0 < step) (hi lo : ℚ) (h : lo < hi) :
    0 < iterations step hi lo := by
  by_contra hc
  have h0 : iterations step hi lo = 0 := by omega
  have := iterations_spec_le step hstep hi lo
  rw [h0] at this
  simp at this
  linarith

theorem wallTiles_ne_nil (g : Game) (hW : 0 < g.worldWidth) (hH : 0 < g.worldHeight) :
    wallTiles g ≠ [] := by
  have h1 := iterations_pos 16 (by norm_num) g.worldWidth 0 hW
  have h2 := iterations_pos 16 (by norm_num) g.worldHeight 0 hH
  intro hnil
  have hmem : ((0 : ℚ) + 16 * ((0 : ℕ) : ℚ), (0 : ℚ) + 16 * ((0 : ℕ) : ℚ)) ∈ wallTiles g := by
    unfold wallTiles
    rw [List.mem_flatMap]
    exact ⟨0, List.mem_range.mpr h2, List.mem_map.mpr ⟨0, List.mem_range.mpr h1, rfl⟩⟩
  rw [hnil] at hmem
  exact List.not_mem_nil _ hmem

/-! ## Room sizes -/

/-- C9: with `min_room_size = max_room_size = m`, every room placed by the
constructor has width and height exactly `m * 16`, whatever the random values
are. -/
theorem fixed_size_rooms (g : Game) (m N : ℤ) :
    ∃ s : MapState, Map g m m N = Except.ok s ∧
      (s.calls.filter Call.isRoom).length = N.toNat ∧
      ∀ x1 x2 y1 y2, Call.createRoom x1 x2 y1 y2 ∈ s.calls →
        x2 - x1 = (m : ℚ) * 16 ∧ y2 - y1 = (m : ℚ) * 16 := by
  obtain ⟨s, hs, _, _, hlen, hmem⟩ := Map_rooms g m m N
  refine ⟨s, hs, hlen, ?_⟩
  intro x1 x2 y1 y2 hc
  obtain ⟨k, _, hk⟩ := hmem x1 x2 y1 y2 hc
  obtain ⟨e1, e2, e3, e4⟩ := roomCall_eq g m m _ x1 x2 y1 y2 hk
  constructor
  · rw [e1, e2, roomW, size_draw_eq]; ring
  · rw [e3, e4, roomH, size_draw_eq]; ring

theorem calls_one (g : Game) (lo hi : ℤ) :
    (List.range (1 : ℤ).toNat).flatMap (iterationCalls g lo hi 0) = [roomCall g lo hi 0] := by
  simp [iterationCalls, List.range_succ]


/-- A drawn size with `lo <= hi`: the factor of 16 lies in `[lo, hi]`. -/
theorem size_draw_le (r : ℚ) (lo hi : ℤ) (hr0 : 0 ≤ r) (hr1 : r < 1) (hle : lo ≤ hi) :
    ∃ k : ℤ, lo ≤ k ∧ k ≤ hi ∧
      ((⌊r * ((hi : ℚ) - (lo : ℚ))⌋ : ℚ) + (lo : ℚ)) = (k : ℚ) := by
  rcases lt_or_eq_of_le hle with hlt | heq
  · obtain ⟨k, h1, h2, h3⟩ := size_draw_lt r lo hi hr0 hr1 hlt
    exact ⟨k, h1, le_of_lt h2, h3⟩
  · subst heq
    exact ⟨lo, le_refl _, le_refl _, size_draw_eq r lo⟩

/-- An origin drawn from a non-empty range `[1, c + 1)` or from the one-point
range `c = 0` lies between 16 and `(c + 1) * 16`. -/
theorem origin_draw_bounds (r c : ℚ) (hr0 : 0 ≤ r) (hr1 : r < 1) (hc : 0 ≤ c) :
    16 ≤ ((⌊r * c⌋ : ℚ) + 1) * 16 ∧ ((⌊r * c⌋ : ℚ) + 1) * 16 ≤ (c + 1) * 16 := by
  have h1 : (0 : ℚ) ≤ (⌊r * c⌋ : ℚ) := by exact_mod_cast floor_mul_nonneg r c hr0 hc
  have h2 := floor_mul_le r c hr1 hc
  constructor <;> linarith


/-! ## Placement -/

/-- Counterexample to C2: in a 48 x 48 world with room sizes fixed at 3 the room
drawn with random values 0 is placed at x = 16 and reaches x = 64, outside the
world. -/
theorem rooms_fit_counterexample :
    ∃ s : MapState,
      Map { worldWidth := 48, worldHeight := 48, random := fun _ => 0 } 3 3 1 = Except.ok s ∧
      Call.createRoom 16 64 16 64 ∈ s.calls ∧ ¬ ((64 : ℚ) ≤ 48) := by
  have hcall : roomCall { worldWidth := 48, worldHeight := 48, random := fun _ => 0 } 3 3 0
      = Call.createRoom 16 64 16 64 := by
    simp only [roomCall, roomX, roomY, roomW, roomH]
    norm_num
  refine ⟨_, Map_eq _ 3 3 1, ?_, by norm_num⟩
  simp only [calls_one, hcall, List.mem_singleton]

/-- C2, amended: when `min_room_size <= max_room_size` and the world is at least
`16 * (max_room_size + 2)` wide and high, every room placed by the constructor
has its origin at 16 or more on both axes and ends at least 16 short of the
right edge of the world: `16 <= x`, `x + w <= world width - 16` and `16 <= y`. -/
theorem rooms_fit_horizontally (g : Game) (lo hi N : ℤ) (hle : lo ≤ hi)
    (hW : 16 * ((hi : ℚ) + 2) ≤ g.worldWidth) (hH : 16 * ((hi : ℚ) + 2) ≤ g.worldHeight)
    (hr : ∀ d, 0 ≤ g.random d ∧ g.random d < 1) :
    ∃ s : MapState, Map g lo hi N = Except.ok s ∧
      (s.calls.filter Call.isRoom).length = N.toNat ∧
      ∀ x1 x2 y1 y2, Call.createRoom x1 x2 y1 y2 ∈ s.calls →
        16 ≤ x1 ∧ x2 ≤ g.worldWidth - 16 ∧ 16 ≤ y1 := by
  obtain ⟨s, hs, _, _, hlen, hmem⟩ := Map_rooms g lo hi N
  refine ⟨s, hs, hlen, ?_⟩
  intro x1 x2 y1 y2 hc
  obtain ⟨k, _, hk⟩ := hmem x1 x2 y1 y2 hc
  obtain ⟨e1, e2, e3, _⟩ := roomCall_eq g lo hi _ x1 x2 y1 y2 hk
  obtain ⟨kw, _, hw2, hw3⟩ :=
    size_draw_le (g.random (0 + 4 * k)) lo hi (hr _).1 (hr _).2 hle
  have hkw : (kw : ℚ) ≤ (hi : ℚ) := by exact_mod_cast hw2
  have hwv : roomW g lo hi (0 + 4 * k) = (kw : ℚ) * 16 := by rw [roomW, hw3]
  have hx := origin_draw_bounds (g.random (0 + 4 * k + 2))
    (g.worldWidth / 16 - (roomW g lo hi (0 + 4 * k) / 16 + 1) - 1) (hr _).1 (hr _).2
    (by rw [hwv]; linarith)
  have hy := origin_draw_bounds (g.random (0 + 4 * k + 3))
    (g.worldHeight / 16 - (roomW g lo hi (0 + 4 * k) / 16 + 1) - 1) (hr _).1 (hr _).2
    (by rw [hwv]; linarith)
  refine ⟨?_, ?_, ?_⟩
  · rw [e1, roomX]; exact hx.1
  · rw [e2, roomX]
    have := hx.2
    rw [hwv] at this ⊢
    linarith
  · rw [e3, roomY]; exact hy.1

/-- Witness of the amended C2 in the sample world with room sizes 2 to 5. -/
theorem rooms_fit_horizontally_witness :
    (2 : ℤ) ≤ 5 ∧ 16 * (((5 : ℤ) : ℚ) + 2) ≤ sampleGame.worldWidth ∧
    16 * (((5 : ℤ) : ℚ) + 2) ≤ sampleGame.worldHeight ∧
    (∀ d, 0 ≤ sampleGame.random d ∧ sampleGame.random d < 1) ∧
    ∃ s : MapState, Map sampleGame 2 5 3 = Except.ok s ∧
      (s.calls.filter Call.isRoom).length = (3 : ℤ).toNat ∧
      ∀ x1 x2 y1 y2, Call.createRoom x1 x2 y1 y2 ∈ s.calls →
        16 ≤ x1 ∧ x2 ≤ sampleGame.worldWidth - 16 ∧ 16 ≤ y1 :=
  ⟨by decide, by norm_num [sampleGame], by norm_num [sampleGame],
    fun _ => by norm_num [sampleGame],
    rooms_fit_horizontally sampleGame 2 5 3 (by decide) (by norm_num [sampleGame])
      (by norm_num [sampleGame]) (fun _ => by norm_num [sampleGame])⟩

/-- The vertical bound on its own: in `tallRoomGame` with room sizes 2 to 6 the
room has width 32 and height 80 and is placed at y = 256, so it ends at y = 336,
below the bottom edge of the 320 high world: line 103 draws y from the width of
the room. -/
theorem room_overflows_bottom :
    ∃ s : MapState, Map tallRoomGame 2 6 1 = Except.ok s ∧
      s.calls = [Call.createRoom 16 48 256 336] ∧ ¬ ((336 : ℚ) ≤ tallRoomGame.worldHeight) := by
  have hcall : roomCall tallRoomGame 2 6 0 = Call.createRoom 16 48 256 336 := by
    simp only [roomCall, roomX, roomY, roomW, roomH, tallRoomGame]
    norm_num
  refine ⟨_, Map_eq _ 2 6 1, ?_, by norm_num [tallRoomGame]⟩
  simp only [calls_one, hcall]

/-- C3: in a 640 x 320 world with `min_room_size = 2`, `max_room_size = 5` and
`max_rooms = 1`, for every sequence of random values in `[0, 1)`: the 40 x 20 =
800 wall tiles are created, the only painting call is one `createRoom`, whose
width and height lie between `2 * 16` and `5 * 16` and whose rectangle satisfies
`16 <= x`, `x + w <= 640`, `16 <= y`, `y + h <= 320`; no tunnel method is
called; and the floor tiles of the finished map are exactly the tiles of that
one room, `(x + 16 i, y + 16 j)` with `i < w/16` and `j < h/16`, each created
once and all inside the rectangle. -/
theorem single_room_scenario (rnd : ℕ → ℚ) (hr : ∀ d, 0 ≤ rnd d ∧ rnd d < 1) :
    ∃ (s : MapState) (x y w h : ℚ),
      Map { worldWidth := 640, worldHeight := 320, random := rnd } 2 5 1 = Except.ok s ∧
      s.walls.length = 800 ∧
      (∀ p, p ∈ s.walls ↔ ∃ i j : ℕ, i < 40 ∧ j < 20 ∧ p = (16 * (i : ℚ), 16 * (j : ℚ))) ∧
      s.calls = [Call.createRoom x (x + w) y (y + h)] ∧
      2 * 16 ≤ w ∧ w ≤ 5 * 16 ∧ 2 * 16 ≤ h ∧ h ≤ 5 * 16 ∧
      16 ≤ x ∧ x + w ≤ 640 ∧ 16 ≤ y ∧ y + h ≤ 320 ∧
      (∀ c ∈ s.calls, c.isHTunnel = false ∧ c.isVTunnel = false) ∧
      ∃ m n : ℕ, w = 16 * (m : ℚ) ∧ h = 16 * (n : ℚ) ∧
        (∀ p, p ∈ s.floors ↔
          ∃ i j : ℕ, i < m ∧ j < n ∧ p = (x + 16 * (i : ℚ), y + 16 * (j : ℚ))) ∧
        s.floors.Nodup ∧ s.floors.length = m * n ∧
        (∀ p ∈ s.floors, x ≤ p.1 ∧ p.1 < x + w ∧ y ≤ p.2 ∧ p.2 < y + h) := by
  obtain ⟨kw, hw1, hw2, hw3⟩ := size_draw_lt (rnd 0) 2 5 (hr _).1 (hr _).2 (by decide)
  obtain ⟨kh, hh1, hh2, hh3⟩ := size_draw_lt (rnd (0 + 1)) 2 5 (hr _).1 (hr _).2 (by decide)
  have hwv : roomW { worldWidth := 640, worldHeight := 320, random := rnd } 2 5 0
      = (kw : ℚ) * 16 := by rw [roomW, hw3]
  have hhv : roomH { worldWidth := 640, worldHeight := 320, random := rnd } 2 5 0
      = (kh : ℚ) * 16 := by rw [roomH, hh3]
  have hcx : (640 : ℚ) / 16 - ((kw : ℚ) * 16 / 16 + 1) - 1 = ((38 - kw : ℤ) : ℚ) := by
    push_cast; ring
  have hcy : (320 : ℚ) / 16 - ((kw : ℚ) * 16 / 16 + 1) - 1 = ((18 - kw : ℤ) : ℚ) := by
    push_cast; ring
  have hfx0 := floor_mul_nonneg (rnd (0 + 2)) ((38 - kw : ℤ) : ℚ) (hr _).1
    (by exact_mod_cast (by omega : (0 : ℤ) ≤ 38 - kw))
  have hfx1 := floor_mul_lt (rnd (0 + 2)) (38 - kw) (hr _).2 (by omega)
  have hfy0 := floor_mul_nonneg (rnd (0 + 3)) ((18 - kw : ℤ) : ℚ) (hr _).1
    (by exact_mod_cast (by omega : (0 : ℤ) ≤ 18 - kw))
  have hfy1 := floor_mul_lt (rnd (0 + 3)) (18 - kw) (hr _).2 (by omega)
  have hxv : roomX { worldWidth := 640, worldHeight := 320, random := rnd } 2 5 0
      = ((⌊rnd (0 + 2) * ((38 - kw : ℤ) : ℚ)⌋ + 1 : ℤ) : ℚ) * 16 := by
    rw [roomX, hwv]
    simp only [hcx]
    push_cast; ring
  have hyv : roomY { worldWidth := 640, worldHeight := 320, random := rnd } 2 5 0
      = ((⌊rnd (0 + 3) * ((18 - kw : ℤ) : ℚ)⌋ + 1 : ℤ) : ℚ) * 16 := by
    rw [roomY, hwv]
    simp only [hcy]
    push_cast; ring
  have hg := grid_list (fun (j i : ℕ) => ((16 : ℚ) * (i : ℚ), (16 : ℚ) * (j : ℚ)))
    (by
      intro a b c d habcd
      simp only [Prod.mk.injEq, mul_eq_mul_left_iff, Nat.cast_inj,
        OfNat.ofNat_ne_zero, or_false] at habcd
      exact ⟨habcd.2, habcd.1⟩) 20 40
  have hgame : ({ worldWidth := 640, worldHeight := 320, random := rnd } : Game)
      = { worldWidth := 16 * ((40 : ℕ) : ℚ), worldHeight := 16 * ((20 : ℕ) : ℚ),
          random := rnd } := by
    norm_num
  refine ⟨_, roomX { worldWidth := 640, worldHeight := 320, random := rnd } 2 5 0,
    roomY { worldWidth := 640, worldHeight := 320, random := rnd } 2 5 0,
    roomW { worldWidth := 640, worldHeight := 320, random := rnd } 2 5 0,
    roomH { worldWidth := 640, worldHeight := 320, random := rnd } 2 5 0,
    Map_eq _ 2 5 1, ?_, ?_, ?_, ?_, ?_, ?_, ?_, ?_, ?_, ?_, ?_, ?_, ?_⟩
  · exact wallTiles_length _ 40 20 (by norm_num) (by norm_num)
  · intro p
    simp only
    rw [hgame, wallTiles_grid, hg.2.2 p]
    constructor
    · rintro ⟨j, i, hj, hi, rfl⟩
      exact ⟨i, j, hi, hj, rfl⟩
    · rintro ⟨i, j, hi, hj, rfl⟩
      exact ⟨j, i, hj, hi, rfl⟩
  · simp only [calls_one, roomCall]
  · rw [hwv]
    have : (2 : ℚ) ≤ (kw : ℚ) := by exact_mod_cast hw1
    linarith
  · rw [hwv]
    have : (kw : ℚ) ≤ 5 := by exact_mod_cast (le_of_lt hw2)
    linarith
  · rw [hhv]
    have : (2 : ℚ) ≤ (kh : ℚ) := by exact_mod_cast hh1
    linarith
  · rw [hhv]
    have : (kh : ℚ) ≤ 5 := by exact_mod_cast (le_of_lt hh2)
    linarith
  · rw [hxv]
    have : (1 : ℚ) ≤ ((⌊rnd (0 + 2) * ((38 - kw : ℤ) : ℚ)⌋ + 1 : ℤ) : ℚ) := by
      exact_mod_cast (by omega : (1 : ℤ) ≤ ⌊rnd (0 + 2) * ((38 - kw : ℤ) : ℚ)⌋ + 1)
    linarith
  · rw [hxv, hwv]
    have : ((⌊rnd (0 + 2) * ((38 - kw : ℤ) : ℚ)⌋ + 1 : ℤ) : ℚ) + (kw : ℚ) ≤ 40 := by
      exact_mod_cast (by omega : ⌊rnd (0 + 2) * ((38 - kw : ℤ) : ℚ)⌋ + 1 + kw ≤ 40)
    linarith
  · rw [hyv]
    have : (1 : ℚ) ≤ ((⌊rnd (0 + 3) * ((18 - kw : ℤ) : ℚ)⌋ + 1 : ℤ) : ℚ) := by
      exact_mod_cast (by omega : (1 : ℤ) ≤ ⌊rnd (0 + 3) * ((18 - kw : ℤ) : ℚ)⌋ + 1)
    linarith
  · rw [hyv, hhv]
    have : ((⌊rnd (0 + 3) * ((18 - kw : ℤ) : ℚ)⌋ + 1 : ℤ) : ℚ) + (kh : ℚ) ≤ 20 := by
      exact_mod_cast (by omega : ⌊rnd (0 + 3) * ((18 - kw : ℤ) : ℚ)⌋ + 1 + kh ≤ 20)
    linarith
  · intro c hc
    simp only [calls_one, roomCall, List.mem_singleton] at hc
    subst hc
    exact ⟨rfl, rfl⟩
  · have hkw : ((kw.toNat : ℕ) : ℚ) = (kw : ℚ) := by
      have hc : ((kw.toNat : ℕ) : ℤ) = kw := Int.toNat_of_nonneg (by omega)
      exact_mod_cast hc
    have hkh : ((kh.toNat : ℕ) : ℚ) = (kh : ℚ) := by
      have hc : ((kh.toNat : ℕ) : ℤ) = kh := Int.toNat_of_nonneg (by omega)
      exact_mod_cast hc
    have hwn : roomW { worldWidth := 640, worldHeight := 320, random := rnd } 2 5 0
        = 16 * ((kw.toNat : ℕ) : ℚ) := by rw [hwv, hkw]; ring
    have hhn : roomH { worldWidth := 640, worldHeight := 320, random := rnd } 2 5 0
        = 16 * ((kh.toNat : ℕ) : ℚ) := by rw [hhv, hkh]; ring
    have hgr := grid_list
      (fun (i j : ℕ) =>
        (roomX { worldWidth := 640, worldHeight := 320, random := rnd } 2 5 0 + 16 * (i : ℚ),
          roomY { worldWidth := 640, worldHeight := 320, random := rnd } 2 5 0 + 16 * (j : ℚ)))
      (by
        intro a b c d habcd
        simp only [Prod.mk.injEq, add_right_inj, mul_eq_mul_left_iff, Nat.cast_inj,
          OfNat.ofNat_ne_zero, or_false] at habcd
        exact habcd) kw.toNat kh.toNat
    have hfl : ((List.range (1 : ℤ).toNat).flatMap
          (iterationCalls { worldWidth := 640, worldHeight := 320, random := rnd } 2 5 0)).flatMap
          Call.tiles
        = (List.range kw.toNat).flatMap fun (i : ℕ) =>
            (List.range kh.toNat).map fun (j : ℕ) =>
              (roomX { worldWidth := 640, worldHeight := 320, random := rnd } 2 5 0
                  + 16 * (i : ℚ),
                roomY { worldWidth := 640, worldHeight := 320, random := rnd } 2 5 0
                  + 16 * (j : ℚ)) := by
      simp only [calls_one, roomCall, List.flatMap_cons, List.flatMap_nil, List.append_nil,
        Call.tiles]
      rw [hwn, hhn, roomTiles_grid]
    refine ⟨kw.toNat, kh.toNat, hwn, hhn, ?_, ?_, ?_, ?_⟩
    · intro p
      simp only [hfl]
      exact hgr.2.2 p
    · simp only [hfl]
      exact hgr.1
    · simp only [hfl]
      exact hgr.2.1
    · intro p hp
      simp only [hfl] at hp
      obtain ⟨i, j, hi, hj, rfl⟩ := (hgr.2.2 p).mp hp
      have hi' : (i : ℚ) + 1 ≤ ((kw.toNat : ℕ) : ℚ) := by exact_mod_cast hi
      have hj' : (j : ℚ) + 1 ≤ ((kh.toNat : ℕ) : ℚ) := by exact_mod_cast hj
      have hi0 : (0 : ℚ) ≤ (i : ℚ) := Nat.cast_nonneg i
      have hj0 : (0 : ℚ) ≤ (j : ℚ) := Nat.cast_nonneg j
      rw [hwn, hhn]
      refine ⟨?_, ?_, ?_, ?_⟩ <;> simp only <;> linarith

/-- Witness of C3 with every random value equal to one half. -/
theorem single_room_scenario_witness :
    (∀ d, 0 ≤ sampleGame.random d ∧ sampleGame.random d < 1) ∧
    ∃ (s : MapState) (x y w h : ℚ),
      Map { worldWidth := 640, worldHeight := 320, random := sampleGame.random } 2 5 1
        = Except.ok s ∧
      s.walls.length = 800 ∧
      (∀ p, p ∈ s.walls ↔ ∃ i j : ℕ, i < 40 ∧ j < 20 ∧ p = (16 * (i : ℚ), 16 * (j : ℚ))) ∧
      s.calls = [Call.createRoom x (x + w) y (y + h)] ∧
      2 * 16 ≤ w ∧ w ≤ 5 * 16 ∧ 2 * 16 ≤ h ∧ h ≤ 5 * 16 ∧
      16 ≤ x ∧ x + w ≤ 640 ∧ 16 ≤ y ∧ y + h ≤ 320 ∧
      (∀ c ∈ s.calls, c.isHTunnel = false ∧ c.isVTunnel = false) ∧
      ∃ m n : ℕ, w = 16 * (m : ℚ) ∧ h = 16 * (n : ℚ) ∧
        (∀ p, p ∈ s.floors ↔
          ∃ i j : ℕ, i < m ∧ j < n ∧ p = (x + 16 * (i : ℚ), y + 16 * (j : ℚ))) ∧
        s.floors.Nodup ∧ s.floors.length = m * n ∧
        (∀ p ∈ s.floors, x ≤ p.1 ∧ p.1 < x + w ∧ y ≤ p.2 ∧ p.2 < y + h) :=
  ⟨fun _ => by norm_num [sampleGame],
    single_room_scenario sampleGame.random (fun _ => by norm_num [sampleGame])⟩


/-! ## Configurations with reversed size bounds -/

/-- Counterexample to C10: with `min_room_size = 5` and `max_room_size = 2` in a
640 x 320 world the constructor completes; it creates the 800 wall tiles and
paints a room of 5 x 5 floor tiles. -/
theorem invalid_config_counterexample :
    ∃ s : MapState,
      Map { worldWidth := 640, worldHeight := 320, random := fun _ => 0 } 5 2 1 = Except.ok s ∧
      s.walls.length = 800 ∧ s.floors.length = 25 ∧
      s.calls = [Call.createRoom 16 96 16 96] := by
  have hcall : roomCall { worldWidth := 640, worldHeight := 320, random := fun _ => 0 } 5 2 0
      = Call.createRoom 16 96 16 96 := by
    simp only [roomCall, roomX, roomY, roomW, roomH]
    norm_num
  refine ⟨_, Map_eq _ 5 2 1, ?_, ?_, ?_⟩
  · exact wallTiles_length _ 40 20 (by norm_num) (by norm_num)
  · simp only [calls_one, hcall, List.flatMap_cons, List.flatMap_nil, List.append_nil,
      Call.tiles]
    exact roomTiles_length 16 96 16 96 5 5 (by norm_num) (by norm_num)
  · simp only [calls_one, hcall]

/-- C10, amended: a configuration with `min_room_size > max_room_size` is not
rejected.  The constructor completes, fills the wall grid as for any other
configuration (at least one wall tile in a world of positive size) and places
`max_rooms` rooms, each of width `kw * 16` and height `kh * 16` with
`max_room_size <= kw, kh <= min_room_size`. -/
theorem reversed_bounds_still_build (g : Game) (lo hi N : ℤ) (hgt : hi < lo)
    (hr : ∀ d, 0 ≤ g.random d ∧ g.random d < 1) :
    ∃ s : MapState, Map g lo hi N = Except.ok s ∧
      s.walls = wallTiles g ∧
      (0 < g.worldWidth → 0 < g.worldHeight → s.walls ≠ []) ∧
      (s.calls.filter Call.isRoom).length = N.toNat ∧
      ∀ x1 x2 y1 y2, Call.createRoom x1 x2 y1 y2 ∈ s.calls →
        ∃ kw kh : ℤ, hi ≤ kw ∧ kw ≤ lo ∧ hi ≤ kh ∧ kh ≤ lo ∧
          x2 - x1 = (kw : ℚ) * 16 ∧ y2 - y1 = (kh : ℚ) * 16 := by
  obtain ⟨s, hs, hwalls, _, hlen, hmem⟩ := Map_rooms g lo hi N
  refine ⟨s, hs, hwalls, ?_, hlen, ?_⟩
  · intro hW hH
    rw [hwalls]
    exact wallTiles_ne_nil g hW hH
  · intro x1 x2 y1 y2 hc
    obtain ⟨k, _, hk⟩ := hmem x1 x2 y1 y2 hc
    obtain ⟨e1, e2, e3, e4⟩ := roomCall_eq g lo hi _ x1 x2 y1 y2 hk
    obtain ⟨kw, hw1, hw2, hw3⟩ :=
      size_draw_gt (g.random (0 + 4 * k)) lo hi (hr _).1 (hr _).2 hgt
    obtain ⟨kh, hh1, hh2, hh3⟩ :=
      size_draw_gt (g.random (0 + 4 * k + 1)) lo hi (hr _).1 (hr _).2 hgt
    refine ⟨kw, kh, hw1, hw2, hh1, hh2, ?_, ?_⟩
    · rw [e1, e2, roomW, hw3]; ring
    · rw [e3, e4, roomH, hh3]; ring

/-- Witness of the amended C10 in the sample world with `min_room_size = 5` and
`max_room_size = 2`. -/
theorem reversed_bounds_still_build_witness :
    (2 : ℤ) < 5 ∧ (∀ d, 0 ≤ sampleGame.random d ∧ sampleGame.random d < 1) ∧
    ∃ s : MapState, Map sampleGame 5 2 1 = Except.ok s ∧
      s.walls = wallTiles sampleGame ∧
      (0 < sampleGame.worldWidth → 0 < sampleGame.worldHeight → s.walls ≠ []) ∧
      (s.calls.filter Call.isRoom).length = (1 : ℤ).toNat ∧
      ∀ x1 x2 y1 y2, Call.createRoom x1 x2 y1 y2 ∈ s.calls →
        ∃ kw kh : ℤ, (2 : ℤ) ≤ kw ∧ kw ≤ 5 ∧ (2 : ℤ) ≤ kh ∧ kh ≤ 5 ∧
          x2 - x1 = (kw : ℚ) * 16 ∧ y2 - y1 = (kh : ℚ) * 16 :=
  ⟨by decide, fun _ => by norm_num [sampleGame],
    reversed_bounds_still_build sampleGame 5 2 1 (by decide)
      (fun _ => by norm_num [sampleGame])⟩


/-! ## Tunnels -/

theorem snapToFloor_multiple (v : ℚ) : ∃ a : ℤ, snapToFloor v 16 = 16 * (a : ℚ) :=
  ⟨⌊v / 16⌋, rfl⟩

theorem tunnel_iterations (lo : ℚ) (d : ℕ) :
    iterations 8 (lo + 16 * (d : ℚ) + 8) lo = 2 * d + 1 := by
  apply iterations_eq 8 (by norm_num)
  · intro k hk
    have : (k : ℚ) + 1 ≤ ((2 * d + 1 : ℕ) : ℚ) := by exact_mod_cast hk
    push_cast at this
    linarith
  · push_cast
    linarith

theorem snapped_span (a b : ℚ) (ha : ∃ i : ℤ, a = 16 * (i : ℚ)) (hb : ∃ j : ℤ, b = 16 * (j : ℚ)) :
    ∃ d : ℕ, max a b = min a b + 16 * (d : ℚ) := by
  obtain ⟨i, rfl⟩ := ha
  obtain ⟨j, rfl⟩ := hb
  rcases le_total i j with hij | hij
  · have hq : (16 : ℚ) * (i : ℚ) ≤ 16 * (j : ℚ) := by
      have : (i : ℚ) ≤ (j : ℚ) := by exact_mod_cast hij
      linarith
    refine ⟨(j - i).toNat, ?_⟩
    rw [max_eq_right hq, min_eq_left hq]
    have : (((j - i).toNat : ℕ) : ℚ) = (j : ℚ) - (i : ℚ) := by
      have h1 : (((j - i).toNat : ℕ) : ℤ) = j - i := Int.toNat_of_nonneg (by omega)
      exact_mod_cast h1
    rw [this]; ring
  · have hq : (16 : ℚ) * (j : ℚ) ≤ 16 * (i : ℚ) := by
      have : (j : ℚ) ≤ (i : ℚ) := by exact_mod_cast hij
      linarith
    refine ⟨(i - j).toNat, ?_⟩
    rw [max_eq_left hq, min_eq_right hq]
    have : (((i - j).toNat : ℕ) : ℚ) = (i : ℚ) - (j : ℚ) := by
      have h1 : (((i - j).toNat : ℕ) : ℤ) = i - j := Int.toNat_of_nonneg (by omega)
      exact_mod_cast h1
    rw [this]; ring

/-- A horizontal tunnel between two multiples of 16 stays in its row and paints
both of its end columns. -/
theorem hTunnelTiles_endpoints (a b y : ℚ) (ha : ∃ i : ℤ, a = 16 * (i : ℚ))
    (hb : ∃ j : ℤ, b = 16 * (j : ℚ)) :
    (∀ p ∈ hTunnelTiles a b y, p.2 = y) ∧ (a, y) ∈ hTunnelTiles a b y ∧
      (b, y) ∈ hTunnelTiles a b y := by
  obtain ⟨d, hd⟩ := snapped_span a b ha hb
  have hlo : (min a b, y) ∈ hTunnelTiles a b y := by
    unfold hTunnelTiles
    rw [hd, tunnel_iterations]
    exact List.mem_map.mpr ⟨0, List.mem_range.mpr (by omega), by simp⟩
  have hhi : (max a b, y) ∈ hTunnelTiles a b y := by
    unfold hTunnelTiles
    rw [hd, tunnel_iterations]
    refine List.mem_map.mpr ⟨2 * d, List.mem_range.mpr (by omega), ?_⟩
    rw [← hd]
    simp only [Prod.mk.injEq, and_true]
    rw [hd]; push_cast; ring
  refine ⟨?_, ?_, ?_⟩
  · intro p hp
    unfold hTunnelTiles at hp
    obtain ⟨k, _, rfl⟩ := List.mem_map.mp hp
    rfl
  · rcases le_total a b with hab | hab
    · simpa [min_eq_left hab] using hlo
    · simpa [max_eq_left hab] using hhi
  · rcases le_total a b with hab | hab
    · simpa [max_eq_right hab] using hhi
    · simpa [min_eq_right hab] using hlo

/-- A vertical tunnel between two multiples of 16 stays in its column and
paints both of its end rows. -/
theorem vTunnelTiles_endpoints (a b x : ℚ) (ha : ∃ i : ℤ, a = 16 * (i : ℚ))
    (hb : ∃ j : ℤ, b = 16 * (j : ℚ)) :
    (∀ p ∈ vTunnelTiles a b x, p.1 = x) ∧ (x, a) ∈ vTunnelTiles a b x ∧
      (x, b) ∈ vTunnelTiles a b x := by
  obtain ⟨d, hd⟩ := snapped_span a b ha hb
  have hlo : (x, min a b) ∈ vTunnelTiles a b x := by
    unfold vTunnelTiles
    rw [hd, tunnel_iterations]
    exact List.mem_map.mpr ⟨0, List.mem_range.mpr (by omega), by simp⟩
  have hhi : (x, max a b) ∈ vTunnelTiles a b x := by
    unfold vTunnelTiles
    rw [hd, tunnel_iterations]
    refine List.mem_map.mpr ⟨2 * d, List.mem_range.mpr (by omega), ?_⟩
    rw [← hd]
    simp only [Prod.mk.injEq, true_and]
    rw [hd]; push_cast; ring
  refine ⟨?_, ?_, ?_⟩
  · intro p hp
    unfold vTunnelTiles at hp
    obtain ⟨k, _, rfl⟩ := List.mem_map.mp hp
    rfl
  · rcases le_total a b with hab | hab
    · simpa [min_eq_left hab] using hlo
    · simpa [max_eq_left hab] using hhi
  · rcases le_total a b with hab | hab
    · simpa [max_eq_right hab] using hhi
    · simpa [min_eq_right hab] using hlo

theorem filter_isHTunnel_calls (g : Game) (lo hi : ℤ) (d0 n : ℕ) :
    ((List.range n).flatMap (iterationCalls g lo hi d0)).filter Call.isHTunnel
      = (List.range (n - 1)).map fun (k : ℕ) =>
          Call.createHTunnel (snapToFloor (roomCentre g lo hi (d0 + 4 * k)).1 16)
            (snapToFloor (roomCentre g lo hi (d0 + 4 * (k + 1))).1 16)
            (snapToFloor (roomCentre g lo hi (d0 + 4 * k)).2 16) := by
  induction n with
  | zero => simp
  | succ n ih =>
    rw [List.range_succ, List.flatMap_append, List.filter_append, ih]
    cases n with
    | zero => simp [iterationCalls, roomCall, Call.isHTunnel]
    | succ m =>
      simp [iterationCalls, roomCall, tunnelCalls, Call.isHTunnel, List.range_succ]

theorem filter_isVTunnel_calls (g : Game) (lo hi : ℤ) (d0 n : ℕ) :
    ((List.range n).flatMap (iterationCalls g lo hi d0)).filter Call.isVTunnel
      = (List.range (n - 1)).map fun (k : ℕ) =>
          Call.createVTunnel (snapToFloor (roomCentre g lo hi (d0 + 4 * k)).2 16)
            (snapToFloor (roomCentre g lo hi (d0 + 4 * (k + 1))).2 16)
            (snapToFloor (roomCentre g lo hi (d0 + 4 * (k + 1))).1 16) := by
  induction n with
  | zero => simp
  | succ n ih =>
    rw [List.range_succ, List.flatMap_append, List.filter_append, ih]
    cases n with
    | zero => simp [iterationCalls, roomCall, Call.isVTunnel]
    | succ m =>
      simp [iterationCalls, roomCall, tunnelCalls, Call.isVTunnel, List.range_succ]

theorem Map_floors (g : Game) (lo hi N : ℤ) :
    ∃ s : MapState, Map g lo hi N = Except.ok s ∧
      s.calls = (List.range N.toNat).flatMap (iterationCalls g lo hi 0) ∧
      s.floors = s.calls.flatMap Call.tiles :=
  ⟨_, Map_eq g lo hi N, rfl, rfl⟩

theorem tunnelCalls_mem (g : Game) (lo hi : ℤ) (n i : ℕ) (hin : i < n) :
    Call.createHTunnel (snapToFloor (roomCentre g lo hi (0 + 4 * i)).1 16)
        (snapToFloor (roomCentre g lo hi (0 + 4 * (i + 1))).1 16)
        (snapToFloor (roomCentre g lo hi (0 + 4 * i)).2 16)
      ∈ (List.range (n + 1)).flatMap (iterationCalls g lo hi 0) ∧
    Call.createVTunnel (snapToFloor (roomCentre g lo hi (0 + 4 * i)).2 16)
        (snapToFloor (roomCentre g lo hi (0 + 4 * (i + 1))).2 16)
        (snapToFloor (roomCentre g lo hi (0 + 4 * (i + 1))).1 16)
      ∈ (List.range (n + 1)).flatMap (iterationCalls g lo hi 0) := by
  constructor
  · rw [List.mem_flatMap]
    refine ⟨i + 1, List.mem_range.mpr (by omega), ?_⟩
    simp [iterationCalls, tunnelCalls]
  · rw [List.mem_flatMap]
    refine ⟨i + 1, List.mem_range.mpr (by omega), ?_⟩
    simp [iterationCalls, tunnelCalls]

/-- C4: with `max_rooms = n + 1 >= 1` the constructor paints `n + 1` rooms and
exactly `n` tunnels, each made of one `createHTunnel` call and one
`createVTunnel` call; tunnel `i` runs from the snapped centre of room `i` to the
snapped centre of room `i + 1` (horizontally along the row of the first centre,
then vertically along the column of the second), and the snapped centres are
multiples of 16.  For `n = 2`, three rooms give two tunnels. -/
theorem tunnels_chain_rooms (g : Game) (lo hi : ℤ) (n : ℕ) :
    ∃ s : MapState, Map g lo hi ((n + 1 : ℕ) : ℤ) = Except.ok s ∧
      (s.calls.filter Call.isRoom).length = n + 1 ∧
      (s.calls.filter Call.isHTunnel).length = n ∧
      (s.calls.filter Call.isVTunnel).length = n ∧
      ∀ i, i < n → ∃ x y w h x' y' w' h' : ℚ,
        (s.calls.filter Call.isRoom)[i]? = some (Call.createRoom x (x + w) y (y + h)) ∧
        (s.calls.filter Call.isRoom)[i + 1]?
          = some (Call.createRoom x' (x' + w') y' (y' + h')) ∧
        (s.calls.filter Call.isHTunnel)[i]?
          = some (Call.createHTunnel (snapToFloor (x + w / 2) 16)
              (snapToFloor (x' + w' / 2) 16) (snapToFloor (y + h / 2) 16)) ∧
        (s.calls.filter Call.isVTunnel)[i]?
          = some (Call.createVTunnel (snapToFloor (y + h / 2) 16)
              (snapToFloor (y' + h' / 2) 16) (snapToFloor (x' + w' / 2) 16)) ∧
        ∃ a b c d : ℤ,
          snapToFloor (x + w / 2) 16 = 16 * (a : ℚ) ∧ snapToFloor (y + h / 2) 16 = 16 * (b : ℚ) ∧
          snapToFloor (x' + w' / 2) 16 = 16 * (c : ℚ) ∧
          snapToFloor (y' + h' / 2) 16 = 16 * (d : ℚ) := by
  obtain ⟨s, hs, _, hcalls, _, _⟩ := Map_rooms g lo hi ((n + 1 : ℕ) : ℤ)
  have hN : ((n + 1 : ℕ) : ℤ).toNat = n + 1 := Int.toNat_ofNat _
  rw [hN] at hcalls
  refine ⟨s, hs, ?_, ?_, ?_, ?_⟩
  · rw [hcalls, filter_isRoom_calls]; simp
  · rw [hcalls, filter_isHTunnel_calls]; simp
  · rw [hcalls, filter_isVTunnel_calls]; simp
  · intro i hin
    refine ⟨roomX g lo hi (0 + 4 * i), roomY g lo hi (0 + 4 * i), roomW g lo hi (0 + 4 * i),
      roomH g lo hi (0 + 4 * i), roomX g lo hi (0 + 4 * (i + 1)), roomY g lo hi (0 + 4 * (i + 1)),
      roomW g lo hi (0 + 4 * (i + 1)), roomH g lo hi (0 + 4 * (i + 1)), ?_, ?_, ?_, ?_, ?_⟩
    · rw [hcalls, filter_isRoom_calls, List.getElem?_map,
        List.getElem?_range (by omega : i < n + 1)]
      rfl
    · rw [hcalls, filter_isRoom_calls, List.getElem?_map,
        List.getElem?_range (by omega : i + 1 < n + 1)]
      rfl
    · rw [hcalls, filter_isHTunnel_calls, List.getElem?_map,
        List.getElem?_range (by omega : i < n + 1 - 1)]
      rfl
    · rw [hcalls, filter_isVTunnel_calls, List.getElem?_map,
        List.getElem?_range (by omega : i < n + 1 - 1)]
      rfl
    · obtain ⟨a, ha⟩ := snapToFloor_multiple
        (roomX g lo hi (0 + 4 * i) + roomW g lo hi (0 + 4 * i) / 2)
      obtain ⟨b, hb⟩ := snapToFloor_multiple
        (roomY g lo hi (0 + 4 * i) + roomH g lo hi (0 + 4 * i) / 2)
      obtain ⟨c, hc⟩ := snapToFloor_multiple
        (roomX g lo hi (0 + 4 * (i + 1)) + roomW g lo hi (0 + 4 * (i + 1)) / 2)
      obtain ⟨d, hd⟩ := snapToFloor_multiple
        (roomY g lo hi (0 + 4 * (i + 1)) + roomH g lo hi (0 + 4 * (i + 1)) / 2)
      exact ⟨a, b, c, d, ha, hb, hc, hd⟩

/-- C5: for every room after the first, with `(prev_x, prev_y)` the snapped
centre of the previous room and `(new_x, new_y)` the snapped centre of the new
room, the constructor calls `createHTunnel(prev_x, new_x, prev_y)` and
`createVTunnel(prev_y, new_y, new_x)`: every tile of the horizontal segment has
row `prev_y`, every tile of the vertical segment has column `new_x`, and the
tiles painted (all of which are floor tiles of the finished map) include
`(prev_x, prev_y)`, the corner `(new_x, prev_y)` and `(new_x, new_y)`. -/
theorem tunnel_L_shape (g : Game) (lo hi : ℤ) (n : ℕ) :
    ∃ s : MapState, Map g lo hi ((n + 1 : ℕ) : ℤ) = Except.ok s ∧
      ∀ i, i < n → ∃ (x y w h x' y' w' h' : ℚ) (ht vt : List (ℚ × ℚ)),
        (s.calls.filter Call.isRoom)[i]? = some (Call.createRoom x (x + w) y (y + h)) ∧
        (s.calls.filter Call.isRoom)[i + 1]?
          = some (Call.createRoom x' (x' + w') y' (y' + h')) ∧
        Call.createHTunnel (snapToFloor (x + w / 2) 16) (snapToFloor (x' + w' / 2) 16)
          (snapToFloor (y + h / 2) 16) ∈ s.calls ∧
        Call.createVTunnel (snapToFloor (y + h / 2) 16) (snapToFloor (y' + h' / 2) 16)
          (snapToFloor (x' + w' / 2) 16) ∈ s.calls ∧
        (∀ t : MapState,
          (createHTunnel t (snapToFloor (x + w / 2) 16) (snapToFloor (x' + w' / 2) 16)
            (snapToFloor (y + h / 2) 16)).floors = t.floors ++ ht) ∧
        (∀ t : MapState,
          (createVTunnel t (snapToFloor (y + h / 2) 16) (snapToFloor (y' + h' / 2) 16)
            (snapToFloor (x' + w' / 2) 16)).floors = t.floors ++ vt) ∧
        (∀ p ∈ ht, p.2 = snapToFloor (y + h / 2) 16) ∧
        (∀ p ∈ vt, p.1 = snapToFloor (x' + w' / 2) 16) ∧
        (snapToFloor (x + w / 2) 16, snapToFloor (y + h / 2) 16) ∈ ht ∧
        (snapToFloor (x' + w' / 2) 16, snapToFloor (y + h / 2) 16) ∈ ht ∧
        (snapToFloor (x' + w' / 2) 16, snapToFloor (y + h / 2) 16) ∈ vt ∧
        (snapToFloor (x' + w' / 2) 16, snapToFloor (y' + h' / 2) 16) ∈ vt ∧
        (∀ p ∈ ht, p ∈ s.floors) ∧ (∀ p ∈ vt, p ∈ s.floors) := by
  obtain ⟨s, hs, hcalls, hfloors⟩ := Map_floors g lo hi ((n + 1 : ℕ) : ℤ)
  have hN : ((n + 1 : ℕ) : ℤ).toNat = n + 1 := Int.toNat_ofNat _
  rw [hN] at hcalls
  refine ⟨s, hs, ?_⟩
  intro i hin
  have hmem := tunnelCalls_mem g lo hi n i hin
  rw [← hcalls] at hmem
  have hH := hTunnelTiles_endpoints
    (snapToFloor (roomCentre g lo hi (0 + 4 * i)).1 16)
    (snapToFloor (roomCentre g lo hi (0 + 4 * (i + 1))).1 16)
    (snapToFloor (roomCentre g lo hi (0 + 4 * i)).2 16)
    (snapToFloor_multiple _) (snapToFloor_multiple _)
  have hV := vTunnelTiles_endpoints
    (snapToFloor (roomCentre g lo hi (0 + 4 * i)).2 16)
    (snapToFloor (roomCentre g lo hi (0 + 4 * (i + 1))).2 16)
    (snapToFloor (roomCentre g lo hi (0 + 4 * (i + 1))).1 16)
    (snapToFloor_multiple _) (snapToFloor_multiple _)
  refine ⟨roomX g lo hi (0 + 4 * i), roomY g lo hi (0 + 4 * i), roomW g lo hi (0 + 4 * i),
    roomH g lo hi (0 + 4 * i), roomX g lo hi (0 + 4 * (i + 1)), roomY g lo hi (0 + 4 * (i + 1)),
    roomW g lo hi (0 + 4 * (i + 1)), roomH g lo hi (0 + 4 * (i + 1)),
    hTunnelTiles (snapToFloor (roomCentre g lo hi (0 + 4 * i)).1 16)
      (snapToFloor (roomCentre g lo hi (0 + 4 * (i + 1))).1 16)
      (snapToFloor (roomCentre g lo hi (0 + 4 * i)).2 16),
    vTunnelTiles (snapToFloor (roomCentre g lo hi (0 + 4 * i)).2 16)
      (snapToFloor (roomCentre g lo hi (0 + 4 * (i + 1))).2 16)
      (snapToFloor (roomCentre g lo hi (0 + 4 * (i + 1))).1 16),
    ?_, ?_, hmem.1, hmem.2, ?_, ?_, hH.1, hV.1, hH.2.1, hH.2.2, hV.2.1, hV.2.2, ?_, ?_⟩
  · rw [hcalls, filter_isRoom_calls, List.getElem?_map,
      List.getElem?_range (by omega : i < n + 1)]
    rfl
  · rw [hcalls, filter_isRoom_calls, List.getElem?_map,
      List.getElem?_range (by omega : i + 1 < n + 1)]
    rfl
  · intro t
    rw [createHTunnel_eq]
    rfl
  · intro t
    rw [createVTunnel_eq]
    rfl
  · intro p hp
    rw [hfloors, List.mem_flatMap]
    exact ⟨_, hmem.1, hp⟩
  · intro p hp
    rw [hfloors, List.mem_flatMap]
    exact ⟨_, hmem.2, hp⟩

/-! ## Rooms that leave no placement range -/

/-- An origin drawn from an empty range, `c <= 0`: the factor of 16 is at most 1
and more than `c`. -/
theorem origin_draw_empty_range (r c : ℚ) (hr0 : 0 ≤ r) (hr1 : r < 1) (hc : c ≤ 0) :
    ((⌊r * c⌋ : ℚ) + 1) * 16 ≤ 16 ∧ c * 16 < ((⌊r * c⌋ : ℚ) + 1) * 16 := by
  have h1 : (⌊r * c⌋ : ℚ) ≤ r * c := Int.floor_le _
  have h2 : r * c < (⌊r * c⌋ : ℚ) + 1 := Int.lt_floor_add_one _
  have h3 : r * c ≤ 0 := mul_nonpos_of_nonneg_of_nonpos hr0 hc
  have h4 : c ≤ r * c := by nlinarith
  constructor <;> linarith

/-- Counterexample to C11: in a 32 x 32 world with room sizes fixed at 2 the
drawn width 32 leaves no placement range (32/16 - (32/16 + 1) = -1), yet the
constructor completes and paints the room from x = 16 to x = 48, outside the
world. -/
theorem room_too_large_counterexample :
    smallGame.worldWidth / 16 - ((32 : ℚ) / 16 + 1) ≤ 1 ∧
    ∃ s : MapState, Map smallGame 2 2 1 = Except.ok s ∧
      s.calls = [Call.createRoom 16 48 16 48] ∧ s.floors.length = 4 ∧
      ¬ ((48 : ℚ) ≤ smallGame.worldWidth) := by
  have hcall : roomCall smallGame 2 2 0 = Call.createRoom 16 48 16 48 := by
    simp only [roomCall, roomX, roomY, roomW, roomH, smallGame]
    norm_num
  refine ⟨by norm_num [smallGame], _, Map_eq _ 2 2 1, ?_, ?_, by norm_num [smallGame]⟩
  · simp only [calls_one, hcall]
  · simp only [calls_one, hcall, List.flatMap_cons, List.flatMap_nil, List.append_nil,
      Call.tiles]
    exact roomTiles_length 16 48 16 48 2 2 (by norm_num) (by norm_num)

/-- C11, amended: a drawn room width that leaves no valid placement range does
not make generation fail.  The constructor completes with all `max_rooms` rooms
placed; a room of width `w` with `world width/16 - (w/16 + 1) <= 1` is placed at
an origin `x <= 16` with `x + w > world width - 32`, and when `world height/16 -
(w/16 + 1) <= 1` its origin has `world height - w - 32 < y <= 16`. -/
theorem oversized_room_still_placed (g : Game) (lo hi N : ℤ)
    (hr : ∀ d, 0 ≤ g.random d ∧ g.random d < 1) :
    ∃ s : MapState, Map g lo hi N = Except.ok s ∧
      (s.calls.filter Call.isRoom).length = N.toNat ∧
      ∀ x1 x2 y1 y2, Call.createRoom x1 x2 y1 y2 ∈ s.calls →
        (g.worldWidth / 16 - ((x2 - x1) / 16 + 1) ≤ 1 →
          x1 ≤ 16 ∧ g.worldWidth - 32 < x2) ∧
        (g.worldHeight / 16 - ((x2 - x1) / 16 + 1) ≤ 1 →
          y1 ≤ 16 ∧ g.worldHeight - (x2 - x1) - 32 < y1) := by
  obtain ⟨s, hs, _, _, hlen, hmem⟩ := Map_rooms g lo hi N
  refine ⟨s, hs, hlen, ?_⟩
  intro x1 x2 y1 y2 hc
  obtain ⟨k, _, hk⟩ := hmem x1 x2 y1 y2 hc
  obtain ⟨e1, e2, e3, _⟩ := roomCall_eq g lo hi _ x1 x2 y1 y2 hk
  have hw : x2 - x1 = roomW g lo hi (0 + 4 * k) := by rw [e1, e2]; ring
  constructor
  · intro hrange
    have hx := origin_draw_empty_range (g.random (0 + 4 * k + 2))
      (g.worldWidth / 16 - (roomW g lo hi (0 + 4 * k) / 16 + 1) - 1) (hr _).1 (hr _).2
      (by rw [← hw]; linarith)
    constructor
    · rw [e1, roomX]; exact hx.1
    · have h2 := hx.2
      have e2' : x2 = roomX g lo hi (0 + 4 * k) + (x2 - x1) := by rw [hw]; exact e2
      rw [e2', roomX]
      rw [← hw] at h2
      linarith
  · intro hrange
    have hy := origin_draw_empty_range (g.random (0 + 4 * k + 3))
      (g.worldHeight / 16 - (roomW g lo hi (0 + 4 * k) / 16 + 1) - 1) (hr _).1 (hr _).2
      (by rw [← hw]; linarith)
    constructor
    · rw [e3, roomY]; exact hy.1
    · have h2 := hy.2
      rw [e3, roomY]
      rw [← hw] at h2
      linarith

/-- Witness of the amended C11 in the 32 x 32 world with room sizes fixed at 2. -/
theorem oversized_room_still_placed_witness :
    (∀ d, 0 ≤ smallGame.random d ∧ smallGame.random d < 1) ∧
    ∃ s : MapState, Map smallGame 2 2 1 = Except.ok s ∧
      (s.calls.filter Call.isRoom).length = (1 : ℤ).toNat ∧
      ∀ x1 x2 y1 y2, Call.createRoom x1 x2 y1 y2 ∈ s.calls →
        (smallGame.worldWidth / 16 - ((x2 - x1) / 16 + 1) ≤ 1 →
          x1 ≤ 16 ∧ smallGame.worldWidth - 32 < x2) ∧
        (smallGame.worldHeight / 16 - ((x2 - x1) / 16 + 1) ≤ 1 →
          y1 ≤ 16 ∧ smallGame.worldHeight - (x2 - x1) - 32 < y1) :=
  ⟨fun _ => by norm_num [smallGame],
    oversized_room_still_placed smallGame 2 2 1 (fun _ => by norm_num [smallGame])⟩

/-! ## Termination -/

/-- C12: for every configuration with `max_rooms = N >= 0` and every sequence
of random values the constructor returns (all loops are total functions): the
room loop makes exactly `N` iterations, each of which paints one room from four
random draws with no retry, and `num_rooms` is `N` on return. -/
theorem makeMap_terminates (g : Game) (lo hi : ℤ) (N : ℕ) :
    ∃ s : MapState, Map g lo hi (N : ℤ) = Except.ok s ∧
      iterations 1 (((N : ℤ) : ℚ)) 0 = N ∧
      s.num_rooms = N ∧ (s.num_rooms : ℤ) = s.max_rooms ∧
      (s.calls.filter Call.isRoom).length = N ∧
      s.draws = 4 * N ∧
      s.floors = s.calls.flatMap Call.tiles ∧
      s.walls = wallTiles g := by
  have hN : ((N : ℕ) : ℤ).toNat = N := Int.toNat_ofNat _
  refine ⟨_, Map_eq g lo hi (N : ℤ), ?_, ?_, ?_, ?_, ?_, rfl, rfl⟩
  · rw [iterations_one, hN]
  · simp only [hN]
  · simp only [hN]
  · simp only [filter_isRoom_calls, List.length_map, List.length_range, hN]
  · simp only [hN]

/-! ## The run of a tunnel -/

/-- The run of a tunnel loop from `lo` up to `hi + 8` in steps of 8, for
`lo <= hi`: it has at least one tile, its tiles are the `lo + 8 k` below
`hi + 8`, and its last tile lies in `[hi, hi + 8)`. -/
theorem tunnel_run (lo hi : ℚ) (hle : lo ≤ hi) :
    0 < iterations 8 (hi + 8) lo ∧
    (∀ k : ℕ, k < iterations 8 (hi + 8) lo ↔ lo + 8 * (k : ℚ) < hi + 8) ∧
    hi ≤ lo + 8 * ((iterations 8 (hi + 8) lo - 1 : ℕ) : ℚ) ∧
    lo + 8 * ((iterations 8 (hi + 8) lo - 1 : ℕ) : ℚ) < hi + 8 := by
  have hpos : 0 < iterations 8 (hi + 8) lo :=
    iterations_pos 8 (by norm_num) (hi + 8) lo (by linarith)
  have hle8 := iterations_spec_le 8 (by norm_num) (hi + 8) lo
  have hcast : ((iterations 8 (hi + 8) lo - 1 : ℕ) : ℚ)
      = (iterations 8 (hi + 8) lo : ℚ) - 1 := by
    rw [Nat.cast_sub hpos]; simp
  refine ⟨hpos, ?_, ?_, ?_⟩
  · intro k
    constructor
    · exact iterations_spec_lt 8 (by norm_num) (hi + 8) lo k
    · intro hk
      have : (k : ℚ) < (iterations 8 (hi + 8) lo : ℚ) := by linarith
      exact_mod_cast this
  · rw [hcast]; linarith
  · exact iterations_spec_lt 8 (by norm_num) (hi + 8) lo _ (by omega)

/-- C13: `createHTunnel(x1, x2, y)` creates floor tiles exactly at the positions
`(min(x1,x2) + 8 k, y)` for `k = 0, 1, ...` while `min(x1,x2) + 8 k <
max(x1,x2) + 8`: the run is not empty, starts at `min(x1,x2)`, and its last tile
`p` satisfies `max(x1,x2) <= p < max(x1,x2) + 8`.  `createVTunnel(y1, y2, x)`
does the same along the other axis.  Stated for all rational arguments, the
integers among them. -/
theorem tunnel_tiles (s : MapState) (a b c : ℚ) :
    (∃ n : ℕ, 0 < n ∧
      (createHTunnel s a b c).floors
        = s.floors ++ (List.range n).map (fun (k : ℕ) => (min a b + 8 * (k : ℚ), c)) ∧
      (∀ k : ℕ, k < n ↔ min a b + 8 * (k : ℚ) < max a b + 8) ∧
      max a b ≤ min a b + 8 * ((n - 1 : ℕ) : ℚ) ∧
      min a b + 8 * ((n - 1 : ℕ) : ℚ) < max a b + 8) ∧
    (∃ n : ℕ, 0 < n ∧
      (createVTunnel s a b c).floors
        = s.floors ++ (List.range n).map (fun (k : ℕ) => (c, min a b + 8 * (k : ℚ))) ∧
      (∀ k : ℕ, k < n ↔ min a b + 8 * (k : ℚ) < max a b + 8) ∧
      max a b ≤ min a b + 8 * ((n - 1 : ℕ) : ℚ) ∧
      min a b + 8 * ((n - 1 : ℕ) : ℚ) < max a b + 8) := by
  obtain ⟨h1, h2, h3, h4⟩ := tunnel_run (min a b) (max a b) min_le_max
  constructor
  · refine ⟨iterations 8 (max a b + 8) (min a b), h1, ?_, h2, h3, h4⟩
    rw [createHTunnel_eq]
    rfl
  · refine ⟨iterations 8 (max a b + 8) (min a b), h1, ?_, h2, h3, h4⟩
    rw [createVTunnel_eq]
    rfl

/-! ## Painting steps -/

/-- Counterexample to C14: `createRoom(0, 32, 0, 32)` paints tiles 16 apart,
`createHTunnel(0, 16, 0)` and `createVTunnel(0, 16, 0)` paint tiles 8 apart. -/
theorem painting_step_counterexample :
    (createRoom sampleState 0 32 0 32).floors = [(0, 0), (0, 16), (16, 0), (16, 16)] ∧
    (createHTunnel sampleState 0 16 0).floors = [(0, 0), (8, 0), (16, 0)] ∧
    (createVTunnel sampleState 0 16 0).floors = [(0, 0), (0, 8), (0, 16)] ∧
    (16 : ℚ) - 0 ≠ 8 - 0 := by
  have hr : iterations 16 32 0 = 2 := by
    have := iterations_mul 16 (by norm_num) 0 2
    norm_num at this
    exact this
  have ht : iterations 8 (16 + 8) 0 = 3 := by
    have := iterations_mul 8 (by norm_num) 0 3
    norm_num at this
    norm_num
    exact this
  refine ⟨?_, ?_, ?_, by norm_num⟩
  · rw [createRoom_eq]
    simp [roomTiles, hr, sampleState, List.range_succ]
  · rw [createHTunnel_eq]
    simp [hTunnelTiles, ht, sampleState, List.range_succ]
    norm_num
  · rw [createVTunnel_eq]
    simp [vTunnelTiles, ht, sampleState, List.range_succ]
    norm_num

/-- C14, amended: successive tiles painted by `createHTunnel` and
`createVTunnel` are 8 apart, half the wall-tile size 16, while the tiles painted
by `createRoom` lie 16 apart on both axes, twice the step of the tunnels. -/
theorem painting_steps (s : MapState) (a b c d : ℚ) :
    (∃ n : ℕ, (createHTunnel s a b c).floors
      = s.floors ++ (List.range n).map (fun (k : ℕ) => (min a b + 16 / 2 * (k : ℚ), c))) ∧
    (∃ n : ℕ, (createVTunnel s a b c).floors
      = s.floors ++ (List.range n).map (fun (k : ℕ) => (c, min a b + 16 / 2 * (k : ℚ)))) ∧
    (∃ m n : ℕ, (createRoom s a b c d).floors
      = s.floors ++ (List.range m).flatMap (fun (i : ℕ) =>
          (List.range n).map (fun (j : ℕ) => (a + 16 * (i : ℚ), c + 16 * (j : ℚ))))) ∧
    (16 : ℚ) = 2 * (16 / 2) := by
  have h8 : (16 : ℚ) / 2 = 8 := by norm_num
  refine ⟨⟨iterations 8 (max a b + 8) (min a b), ?_⟩,
    ⟨iterations 8 (max a b + 8) (min a b), ?_⟩,
    ⟨iterations 16 b a, iterations 16 d c, ?_⟩, by norm_num⟩
  · rw [createHTunnel_eq, h8]
    rfl
  · rw [createVTunnel_eq, h8]
    rfl
  · rw [createRoom_eq]
    rfl

/-! ## The recorded centre -/

theorem placeRoom_undefined (g : Game) (s : MapState) (h0 : s.num_rooms ≠ 0)
    (hc : s.lastRoomCoords = none) :
    placeRoom g s = Except.error JSError.typeError := by
  simp only [placeRoom, getRandom, createRoom_eq, h0, if_false, hc, Except.map]

/-- Every iteration that completes logs its `createRoom` call first and records
the centre of that room. -/
theorem placeRoom_records (g : Game) (s s' : MapState) (hstep : placeRoom g s = Except.ok s') :
    (s'.calls.drop s.calls.length).head?
      = some (roomCall g s.room_min_size s.room_max_size s.draws) ∧
    s'.lastRoomCoords = some (roomCentre g s.room_min_size s.room_max_size s.draws) ∧
    s'.num_rooms = s.num_rooms + 1 ∧ s'.lastRoomCenter = s.lastRoomCenter := by
  by_cases h0 : s.num_rooms = 0
  · rw [placeRoom_first g s h0] at hstep
    injection hstep with hstep
    subst hstep
    simp
  · cases hc : s.lastRoomCoords with
    | none =>
      rw [placeRoom_undefined g s h0 hc] at hstep
      cases hstep
    | some c =>
      rw [placeRoom_next g s c h0 hc] at hstep
      injection hstep with hstep
      subst hstep
      simp

/-- C15: `Room(x, y, w, h)` sets `x1 = x`, `y1 = y`, `x2 = x + w`, `y2 = y + h`
and `center_coords = ((x1 + x2)/2, (y1 + y2)/2) = (x + w/2, y + h/2)`, and this
is the point an iteration of the room loop records in `lastRoomCoords` when the
room it paints is `createRoom(x, x + w, y, y + h)`. -/
theorem Room_center_recorded (x y w h : ℚ) :
    (Room.new x y w h).x1 = x ∧ (Room.new x y w h).y1 = y ∧
    (Room.new x y w h).x2 = x + w ∧ (Room.new x y w h).y2 = y + h ∧
    (Room.new x y w h).center_coords
      = (((Room.new x y w h).x1 + (Room.new x y w h).x2) / 2,
         ((Room.new x y w h).y1 + (Room.new x y w h).y2) / 2) ∧
    (Room.new x y w h).center_coords = (x + w / 2, y + h / 2) ∧
    ∀ (g : Game) (s s' : MapState), placeRoom g s = Except.ok s' →
      (s'.calls.drop s.calls.length).head? = some (Call.createRoom x (x + w) y (y + h)) →
      s'.lastRoomCoords = some (Room.new x y w h).center_coords := by
  have hcentre : (Room.new x y w h).center_coords = (x + w / 2, y + h / 2) := by
    simp only [Room.new, Prod.mk.injEq]
    constructor <;> ring
  refine ⟨rfl, rfl, rfl, rfl, rfl, hcentre, ?_⟩
  intro g s s' hstep hhead
  obtain ⟨h1, h2, _, _⟩ := placeRoom_records g s s' hstep
  rw [h1] at hhead
  injection hhead with hhead
  obtain ⟨e1, e2, e3, e4⟩ := roomCall_eq g _ _ _ x (x + w) y (y + h) hhead.symm
  rw [h2, hcentre, roomCentre]
  have hw : roomW g s.room_min_size s.room_max_size s.draws = w := by linarith
  have hh : roomH g s.room_min_size s.room_max_size s.draws = h := by linarith
  rw [← e1, ← e3, hw, hh]

/-- Witness of C15: the second room placed in the sample world is
`createRoom(288, 336, 128, 176)` and the centre recorded is that of
`Room(288, 128, 48, 48)`. -/
theorem Room_center_recorded_witness :
    ∃ s' : MapState, placeRoom sampleGame sampleState = Except.ok s' ∧
      (s'.calls.drop sampleState.calls.length).head?
        = some (Call.createRoom 288 (288 + 48) 128 (128 + 48)) ∧
      s'.lastRoomCoords = some (Room.new 288 128 48 48).center_coords ∧
      (Room.new 288 128 48 48).center_coords = (288 + 48 / 2, 128 + 48 / 2) := by
  have hcall : roomCall sampleGame sampleState.room_min_size sampleState.room_max_size
      sampleState.draws = Call.createRoom 288 (288 + 48) 128 (128 + 48) := by
    simp only [roomCall, roomX, roomY, roomW, roomH, sampleGame, sampleState]
    norm_num
  have hex : ∃ s' : MapState, placeRoom sampleGame sampleState = Except.ok s' :=
    ⟨_, placeRoom_next sampleGame sampleState (40, 40) (by decide) rfl⟩
  obtain ⟨s', hstep⟩ := hex
  have hhead := (placeRoom_records sampleGame sampleState s' hstep).1
  rw [hcall] at hhead
  exact ⟨s', hstep, hhead,
    (Room_center_recorded 288 128 48 48).2.2.2.2.2.2 sampleGame sampleState s' hstep hhead,
    (Room_center_recorded 288 128 48 48).2.2.2.2.2.1⟩

/-! ## The unit of a room size -/

/-- C16, the code at the failing input: in the sample world with room sizes 2 to
5 the size drawn is 3 and the room painted is 48 wide and 48 high, that is
`3 * 16`, not `3 * 32` as the header comment of map.js announces for 32 x 32
floor tiles. -/
theorem room_side_factor_sixteen :
    (getRandom sampleGame sampleState 2 5).1 = 3 ∧
    ∃ s : MapState, Map sampleGame 2 5 1 = Except.ok s ∧
      s.calls = [Call.createRoom 288 336 128 176] ∧
      (336 : ℚ) - 288 = 3 * 16 ∧ (176 : ℚ) - 128 = 3 * 16 ∧
      (336 : ℚ) - 288 ≠ 3 * 32 ∧ (176 : ℚ) - 128 ≠ 3 * 32 := by
  have hcall : roomCall sampleGame 2 5 0 = Call.createRoom 288 336 128 176 := by
    simp only [roomCall, roomX, roomY, roomW, roomH, sampleGame]
    norm_num
  refine ⟨?_, _, Map_eq _ 2 5 1, ?_, by norm_num, by norm_num, by norm_num, by norm_num⟩
  · simp only [getRandom, sampleGame]
    norm_num
  · simp only [calls_one, hcall]

/-! ## The vertical placement bound -/

/-- Counterexample to C17: in the 600 x 300 world of `wideGame` with room sizes
2 to 5 the room has width 32, its placement range is not empty
(600/16 - (32/16 + 1) = 34.5 > 1), and it is placed at x = 544 = 34 * 16, so that
x/16 exceeds 600/16 - 32/16 - 2 = 33.5 and x + w = 576 exceeds 600 - 32. -/
theorem placement_bound_counterexample :
    (1 : ℚ) < wideGame.worldWidth / 16 - ((32 : ℚ) / 16 + 1) ∧
    ∃ s : MapState, Map wideGame 2 5 1 = Except.ok s ∧
      s.calls = [Call.createRoom 544 576 16 48] ∧
      ¬ ((544 : ℚ) / 16 ≤ wideGame.worldWidth / 16 - (576 - 544) / 16 - 2) ∧
      ¬ ((576 : ℚ) ≤ wideGame.worldWidth - 32) := by
  have hcall : roomCall wideGame 2 5 0 = Call.createRoom 544 576 16 48 := by
    simp only [roomCall, roomX, roomY, roomW, roomH, wideGame]
    norm_num
  refine ⟨by norm_num [wideGame], _, Map_eq _ 2 5 1, ?_, by norm_num [wideGame],
    by norm_num [wideGame]⟩
  simp only [calls_one, hcall]

/-- An origin drawn from a non-empty range of integer length `c >= 1`: the
factor of 16 is an integer between 1 and `c`. -/
theorem origin_draw_integer (r : ℚ) (c : ℤ) (hr0 : 0 ≤ r) (hr1 : r < 1) (hc : 1 ≤ c) :
    ∃ k : ℤ, 1 ≤ k ∧ k ≤ c ∧ ((⌊r * (c : ℚ)⌋ : ℚ) + 1) * 16 = (k : ℚ) * 16 := by
  have h0 := floor_mul_nonneg r (c : ℚ) hr0 (by exact_mod_cast (by omega : (0 : ℤ) ≤ c))
  have h1 := floor_mul_lt r c hr1 (by omega)
  exact ⟨⌊r * (c : ℚ)⌋ + 1, by omega, by omega, by push_cast; ring⟩

/-- C17, amended: in a world whose width `16 m` and height `16 n` are multiples
of 16, every room placed by the constructor has width `kw * 16` and height
`kh * 16` for integers `kw`, `kh`, and both origins are drawn with a bound
computed from the width: if `1 < m - (kw + 1)` then `x = kx * 16` with
`1 <= kx <= m - kw - 2`, hence `x + w <= world width - 32`; if
`1 < n - (kw + 1)` then `y = ky * 16` with `1 <= ky <= n - kw - 2` whatever the
height is, hence `y + h <= world height - 32 + (h - w)`. -/
theorem vertical_bound_uses_width (g : Game) (lo hi N : ℤ) (m n : ℕ)
    (hW : g.worldWidth = 16 * (m : ℚ)) (hH : g.worldHeight = 16 * (n : ℚ))
    (hr : ∀ d, 0 ≤ g.random d ∧ g.random d < 1) :
    ∃ s : MapState, Map g lo hi N = Except.ok s ∧
      (s.calls.filter Call.isRoom).length = N.toNat ∧
      ∀ x1 x2 y1 y2, Call.createRoom x1 x2 y1 y2 ∈ s.calls →
        ∃ kw kh : ℤ, x2 - x1 = (kw : ℚ) * 16 ∧ y2 - y1 = (kh : ℚ) * 16 ∧
          (1 < (m : ℤ) - (kw + 1) →
            ∃ kx : ℤ, x1 = (kx : ℚ) * 16 ∧ 1 ≤ kx ∧ kx ≤ (m : ℤ) - kw - 2 ∧
              x2 ≤ g.worldWidth - 32) ∧
          (1 < (n : ℤ) - (kw + 1) →
            ∃ ky : ℤ, y1 = (ky : ℚ) * 16 ∧ 1 ≤ ky ∧ ky ≤ (n : ℤ) - kw - 2 ∧
              y2 ≤ g.worldHeight - 32 + ((y2 - y1) - (x2 - x1))) := by
  obtain ⟨s, hs, _, _, hlen, hmem⟩ := Map_rooms g lo hi N
  refine ⟨s, hs, hlen, ?_⟩
  intro x1 x2 y1 y2 hc
  obtain ⟨k, _, hk⟩ := hmem x1 x2 y1 y2 hc
  obtain ⟨e1, e2, e3, e4⟩ := roomCall_eq g lo hi _ x1 x2 y1 y2 hk
  have hwv : roomW g lo hi (0 + 4 * k)
      = ((⌊g.random (0 + 4 * k) * ((hi : ℚ) - (lo : ℚ))⌋ + lo : ℤ) : ℚ) * 16 := by
    rw [roomW]; push_cast; ring
  have hhv : roomH g lo hi (0 + 4 * k)
      = ((⌊g.random (0 + 4 * k + 1) * ((hi : ℚ) - (lo : ℚ))⌋ + lo : ℤ) : ℚ) * 16 := by
    rw [roomH]; push_cast; ring
  generalize ⌊g.random (0 + 4 * k) * ((hi : ℚ) - (lo : ℚ))⌋ + lo = kw at hwv
  generalize ⌊g.random (0 + 4 * k + 1) * ((hi : ℚ) - (lo : ℚ))⌋ + lo = kh at hhv
  have hcx : g.worldWidth / 16 - (roomW g lo hi (0 + 4 * k) / 16 + 1) - 1
      = (((m : ℤ) - kw - 2 : ℤ) : ℚ) := by
    rw [hwv, hW]; push_cast; ring
  have hcy : g.worldHeight / 16 - (roomW g lo hi (0 + 4 * k) / 16 + 1) - 1
      = (((n : ℤ) - kw - 2 : ℤ) : ℚ) := by
    rw [hwv, hH]; push_cast; ring
  refine ⟨kw, kh, by rw [e1, e2, hwv]; ring, by rw [e3, e4, hhv]; ring, ?_, ?_⟩
  · intro hrange
    obtain ⟨kx, hk1, hk2, hk3⟩ := origin_draw_integer (g.random (0 + 4 * k + 2))
      ((m : ℤ) - kw - 2) (hr _).1 (hr _).2 (by omega)
    have hx : x1 = (kx : ℚ) * 16 := by rw [e1, roomX, hcx, hk3]
    refine ⟨kx, hx, hk1, hk2, ?_⟩
    have hq : (kx : ℚ) ≤ (((m : ℤ) - kw - 2 : ℤ) : ℚ) := by exact_mod_cast hk2
    push_cast at hq
    rw [e2, ← e1, hx, hwv, hW]
    linarith
  · intro hrange
    obtain ⟨ky, hk1, hk2, hk3⟩ := origin_draw_integer (g.random (0 + 4 * k + 3))
      ((n : ℤ) - kw - 2) (hr _).1 (hr _).2 (by omega)
    have hy : y1 = (ky : ℚ) * 16 := by rw [e3, roomY, hcy, hk3]
    refine ⟨ky, hy, hk1, hk2, ?_⟩
    have hq : (ky : ℚ) ≤ (((n : ℤ) - kw - 2 : ℤ) : ℚ) := by exact_mod_cast hk2
    push_cast at hq
    have hw' : x2 - x1 = (kw : ℚ) * 16 := by rw [e1, e2, hwv]; ring
    rw [hw', hH, hy]
    linarith

/-- Witness of the amended C17 in the sample world, 640 = 16 * 40 wide and
320 = 16 * 20 high. -/
theorem vertical_bound_uses_width_witness :
    sampleGame.worldWidth = 16 * ((40 : ℕ) : ℚ) ∧ sampleGame.worldHeight = 16 * ((20 : ℕ) : ℚ) ∧
    (∀ d, 0 ≤ sampleGame.random d ∧ sampleGame.random d < 1) ∧
    ∃ s : MapState, Map sampleGame 2 5 3 = Except.ok s ∧
      (s.calls.filter Call.isRoom).length = (3 : ℤ).toNat ∧
      ∀ x1 x2 y1 y2, Call.createRoom x1 x2 y1 y2 ∈ s.calls →
        ∃ kw kh : ℤ, x2 - x1 = (kw : ℚ) * 16 ∧ y2 - y1 = (kh : ℚ) * 16 ∧
          (1 < ((40 : ℕ) : ℤ) - (kw + 1) →
            ∃ kx : ℤ, x1 = (kx : ℚ) * 16 ∧ 1 ≤ kx ∧ kx ≤ ((40 : ℕ) : ℤ) - kw - 2 ∧
              x2 ≤ sampleGame.worldWidth - 32) ∧
          (1 < ((20 : ℕ) : ℤ) - (kw + 1) →
            ∃ ky : ℤ, y1 = (ky : ℚ) * 16 ∧ 1 ≤ ky ∧ ky ≤ ((20 : ℕ) : ℤ) - kw - 2 ∧
              y2 ≤ sampleGame.worldHeight - 32 + ((y2 - y1) - (x2 - x1))) :=
  ⟨by norm_num [sampleGame], by norm_num [sampleGame], fun _ => by norm_num [sampleGame],
    vertical_bound_uses_width sampleGame 2 5 3 40 20 (by norm_num [sampleGame])
      (by norm_num [sampleGame]) (fun _ => by norm_num [sampleGame])⟩

/-! ## Tunnel endpoints -/

/-- The centre of a side that starts at `16 a` and is `16 m` long snaps to
`16 a + 16 (m / 2)`, with `m / 2` the integer quotient. -/
theorem snapToFloor_centre (a : ℤ) (m : ℕ) :
    snapToFloor (16 * (a : ℚ) + 16 * (m : ℚ) / 2) 16 = 16 * (a : ℚ) + 16 * ((m / 2 : ℕ) : ℚ) := by
  unfold snapToFloor
  have h1 : (16 * (a : ℚ) + 16 * (m : ℚ) / 2) / 16 = (a : ℚ) + (m : ℚ) / ((2 : ℕ) : ℚ) := by
    push_cast; ring
  have h2 : ((m : ℤ) / ((2 : ℕ) : ℤ)) = ((m / 2 : ℕ) : ℤ) := (Int.natCast_div m 2).symm
  rw [h1, Int.floor_int_add, Rat.floor_natCast_div_natCast, h2, Int.cast_add, Int.cast_natCast]
  ring

/-- The snapped centre of a room with origin `(16 a, 16 b)` and extent
`(16 m, 16 n)`, `m` and `n` positive, is one of the tiles of the room. -/
theorem snapped_centre_mem (a b : ℤ) (m n : ℕ) (hm : 0 < m) (hn : 0 < n) :
    (snapToFloor (16 * (a : ℚ) + 16 * (m : ℚ) / 2) 16,
      snapToFloor (16 * (b : ℚ) + 16 * (n : ℚ) / 2) 16)
      ∈ roomTiles (16 * (a : ℚ)) (16 * (a : ℚ) + 16 * (m : ℚ)) (16 * (b : ℚ))
          (16 * (b : ℚ) + 16 * (n : ℚ)) := by
  rw [roomTiles_grid, snapToFloor_centre, snapToFloor_centre, List.mem_flatMap]
  exact ⟨m / 2, List.mem_range.mpr (Nat.div_lt_self hm (by norm_num)),
    List.mem_map.mpr ⟨n / 2, List.mem_range.mpr (Nat.div_lt_self hn (by norm_num)), rfl⟩⟩

theorem roomCall_mem (g : Game) (lo hi : ℤ) (n k : ℕ) (hk : k < n) :
    roomCall g lo hi (0 + 4 * k) ∈ (List.range n).flatMap (iterationCalls g lo hi 0) := by
  rw [List.mem_flatMap]
  exact ⟨k, List.mem_range.mpr hk, by simp [iterationCalls]⟩

theorem mem_iterationCalls_htunnel (g : Game) (lo hi : ℤ) (n : ℕ) (p q r : ℚ)
    (h : Call.createHTunnel p q r ∈ (List.range n).flatMap (iterationCalls g lo hi 0)) :
    ∃ k, k + 1 < n ∧ p = snapToFloor (roomCentre g lo hi (0 + 4 * k)).1 16 ∧
      r = snapToFloor (roomCentre g lo hi (0 + 4 * k)).2 16 := by
  rw [List.mem_flatMap] at h
  obtain ⟨k, hk, hmem⟩ := h
  have hk' := List.mem_range.mp hk
  cases k with
  | zero => simp [iterationCalls, roomCall] at hmem
  | succ j =>
    simp [iterationCalls, roomCall, tunnelCalls] at hmem
    exact ⟨j, hk', by simpa using hmem.1, by simpa using hmem.2.2⟩

theorem mem_iterationCalls_vtunnel (g : Game) (lo hi : ℤ) (n : ℕ) (p q r : ℚ)
    (h : Call.createVTunnel p q r ∈ (List.range n).flatMap (iterationCalls g lo hi 0)) :
    ∃ k, k < n ∧ q = snapToFloor (roomCentre g lo hi (0 + 4 * k)).2 16 ∧
      r = snapToFloor (roomCentre g lo hi (0 + 4 * k)).1 16 := by
  rw [List.mem_flatMap] at h
  obtain ⟨k, hk, hmem⟩ := h
  have hk' := List.mem_range.mp hk
  cases k with
  | zero => simp [iterationCalls, roomCall] at hmem
  | succ j =>
    simp [iterationCalls, roomCall, tunnelCalls] at hmem
    exact ⟨j + 1, hk', by simpa using hmem.2.1, by simpa using hmem.2.2⟩

/-- With `1 <= lo <= hi` and random values in `[0, 1)`, the room drawn from
index `d` has an origin on the 16-pixel lattice and positive sizes that are
multiples of 16, so its snapped centre is one of its tiles. -/
theorem roomCentre_mem_tiles (g : Game) (lo hi : ℤ) (d : ℕ) (hlo : 1 ≤ lo) (hle : lo ≤ hi)
    (hr : ∀ d, 0 ≤ g.random d ∧ g.random d < 1) :
    (snapToFloor (roomCentre g lo hi d).1 16, snapToFloor (roomCentre g lo hi d).2 16)
      ∈ (roomCall g lo hi d).tiles := by
  obtain ⟨kw, hw1, _, hw3⟩ := size_draw_le (g.random d) lo hi (hr _).1 (hr _).2 hle
  obtain ⟨kh, hh1, _, hh3⟩ := size_draw_le (g.random (d + 1)) lo hi (hr _).1 (hr _).2 hle
  have hwv : roomW g lo hi d = 16 * ((kw.toNat : ℕ) : ℚ) := by
    have hc : ((kw.toNat : ℕ) : ℤ) = kw := Int.toNat_of_nonneg (by omega)
    have hq : ((kw.toNat : ℕ) : ℚ) = (kw : ℚ) := by exact_mod_cast hc
    rw [roomW, hw3, hq]; ring
  have hhv : roomH g lo hi d = 16 * ((kh.toNat : ℕ) : ℚ) := by
    have hc : ((kh.toNat : ℕ) : ℤ) = kh := Int.toNat_of_nonneg (by omega)
    have hq : ((kh.toNat : ℕ) : ℚ) = (kh : ℚ) := by exact_mod_cast hc
    rw [roomH, hh3, hq]; ring
  have hxv : roomX g lo hi d
      = 16 * ((⌊g.random (d + 2) * (g.worldWidth / 16 - (roomW g lo hi d / 16 + 1) - 1)⌋ + 1 : ℤ)
          : ℚ) := by
    rw [roomX]; push_cast; ring
  have hyv : roomY g lo hi d
      = 16 * ((⌊g.random (d + 3) * (g.worldHeight / 16 - (roomW g lo hi d / 16 + 1) - 1)⌋ + 1 : ℤ)
          : ℚ) := by
    rw [roomY]; push_cast; ring
  generalize ⌊g.random (d + 2) * (g.worldWidth / 16 - (roomW g lo hi d / 16 + 1) - 1)⌋ + 1
    = kx at hxv
  generalize ⌊g.random (d + 3) * (g.worldHeight / 16 - (roomW g lo hi d / 16 + 1) - 1)⌋ + 1
    = ky at hyv
  have hmem := snapped_centre_mem kx ky kw.toNat kh.toNat (by omega) (by omega)
  simp only [roomCentre, roomCall, Call.tiles]
  rw [hxv, hyv, hwv, hhv]
  exact hmem

/-- C18: for a room with origin `(x, y) = (16 a, 16 b)` and extent
`(w, h) = (16 m, 16 n)`, `m` and `n` positive, the centre snapped down to a
multiple of 16 is one of the positions `createRoom` paints for that room:
it is `(x + 16 i, y + 16 j)` with `i < m` and `j < n`, so `x <= snapped x <
x + w` and `y <= snapped y < y + h`.  Consequently, in every run with
`1 <= min_room_size <= max_room_size` and random values in `[0, 1)`, each
endpoint of each tunnel is the snapped centre of a room of the run and lies on
one of the floor tiles painted for that room. -/
theorem snapped_centre_painted (s : MapState) (a b : ℤ) (m n : ℕ) (hm : 0 < m) (hn : 0 < n) :
    (∃ tiles : List (ℚ × ℚ),
      (createRoom s (16 * (a : ℚ)) (16 * (a : ℚ) + 16 * (m : ℚ)) (16 * (b : ℚ))
        (16 * (b : ℚ) + 16 * (n : ℚ))).floors = s.floors ++ tiles ∧
      (snapToFloor (16 * (a : ℚ) + 16 * (m : ℚ) / 2) 16,
        snapToFloor (16 * (b : ℚ) + 16 * (n : ℚ) / 2) 16) ∈ tiles) ∧
    (∃ i j : ℕ, i < m ∧ j < n ∧
      snapToFloor (16 * (a : ℚ) + 16 * (m : ℚ) / 2) 16 = 16 * (a : ℚ) + 16 * (i : ℚ) ∧
      snapToFloor (16 * (b : ℚ) + 16 * (n : ℚ) / 2) 16 = 16 * (b : ℚ) + 16 * (j : ℚ)) ∧
    16 * (a : ℚ) ≤ snapToFloor (16 * (a : ℚ) + 16 * (m : ℚ) / 2) 16 ∧
    snapToFloor (16 * (a : ℚ) + 16 * (m : ℚ) / 2) 16 < 16 * (a : ℚ) + 16 * (m : ℚ) ∧
    16 * (b : ℚ) ≤ snapToFloor (16 * (b : ℚ) + 16 * (n : ℚ) / 2) 16 ∧
    snapToFloor (16 * (b : ℚ) + 16 * (n : ℚ) / 2) 16 < 16 * (b : ℚ) + 16 * (n : ℚ) ∧
    ∀ (g : Game) (lo hi N : ℤ), 1 ≤ lo → lo ≤ hi → (∀ d, 0 ≤ g.random d ∧ g.random d < 1) →
      ∃ s' : MapState, Map g lo hi N = Except.ok s' ∧
        (∀ p q r, Call.createHTunnel p q r ∈ s'.calls →
          ∃ x1 x2 y1 y2, Call.createRoom x1 x2 y1 y2 ∈ s'.calls ∧
            p = snapToFloor (x1 + (x2 - x1) / 2) 16 ∧ r = snapToFloor (y1 + (y2 - y1) / 2) 16 ∧
            (p, r) ∈ (Call.createRoom x1 x2 y1 y2).tiles ∧ (p, r) ∈ s'.floors) ∧
        (∀ p q r, Call.createVTunnel p q r ∈ s'.calls →
          ∃ x1 x2 y1 y2, Call.createRoom x1 x2 y1 y2 ∈ s'.calls ∧
            r = snapToFloor (x1 + (x2 - x1) / 2) 16 ∧ q = snapToFloor (y1 + (y2 - y1) / 2) 16 ∧
            (r, q) ∈ (Call.createRoom x1 x2 y1 y2).tiles ∧ (r, q) ∈ s'.floors) := by
  have hi2 : m / 2 < m := Nat.div_lt_self hm (by norm_num)
  have hj2 : n / 2 < n := Nat.div_lt_self hn (by norm_num)
  have hiq : ((m / 2 : ℕ) : ℚ) + 1 ≤ (m : ℚ) := by exact_mod_cast hi2
  have hjq : ((n / 2 : ℕ) : ℚ) + 1 ≤ (n : ℚ) := by exact_mod_cast hj2
  have hi0 : (0 : ℚ) ≤ ((m / 2 : ℕ) : ℚ) := Nat.cast_nonneg _
  have hj0 : (0 : ℚ) ≤ ((n / 2 : ℕ) : ℚ) := Nat.cast_nonneg _
  refine ⟨⟨_, by rw [createRoom_eq], snapped_centre_mem a b m n hm hn⟩,
    ⟨m / 2, n / 2, hi2, hj2, snapToFloor_centre a m, snapToFloor_centre b n⟩, ?_, ?_, ?_, ?_, ?_⟩
  · rw [snapToFloor_centre]; linarith
  · rw [snapToFloor_centre]; linarith
  · rw [snapToFloor_centre]; linarith
  · rw [snapToFloor_centre]; linarith
  · intro g lo hi N hlo hle hr
    obtain ⟨s', hs', hcalls, hfloors⟩ := Map_floors g lo hi N
    refine ⟨s', hs', ?_, ?_⟩
    · intro p q r hmem
      rw [hcalls] at hmem
      obtain ⟨k, hk, hp, hr'⟩ := mem_iterationCalls_htunnel g lo hi _ p q r hmem
      have hroom := roomCall_mem g lo hi N.toNat k (by omega)
      have htile := roomCentre_mem_tiles g lo hi (0 + 4 * k) hlo hle hr
      rw [← hp, ← hr'] at htile
      refine ⟨roomX g lo hi (0 + 4 * k), roomX g lo hi (0 + 4 * k) + roomW g lo hi (0 + 4 * k),
        roomY g lo hi (0 + 4 * k), roomY g lo hi (0 + 4 * k) + roomH g lo hi (0 + 4 * k),
        ?_, ?_, ?_, htile, ?_⟩
      · rw [hcalls]; exact hroom
      · rw [hp, roomCentre]; congr 1; ring
      · rw [hr', roomCentre]; congr 1; ring
      · rw [hfloors, List.mem_flatMap]
        exact ⟨_, by rw [hcalls]; exact hroom, htile⟩
    · intro p q r hmem
      rw [hcalls] at hmem
      obtain ⟨k, hk, hq, hr'⟩ := mem_iterationCalls_vtunnel g lo hi _ p q r hmem
      have hroom := roomCall_mem g lo hi N.toNat k hk
      have htile := roomCentre_mem_tiles g lo hi (0 + 4 * k) hlo hle hr
      rw [← hq, ← hr'] at htile
      refine ⟨roomX g lo hi (0 + 4 * k), roomX g lo hi (0 + 4 * k) + roomW g lo hi (0 + 4 * k),
        roomY g lo hi (0 + 4 * k), roomY g lo hi (0 + 4 * k) + roomH g lo hi (0 + 4 * k),
        ?_, ?_, ?_, htile, ?_⟩
      · rw [hcalls]; exact hroom
      · rw [hr', roomCentre]; congr 1; ring
      · rw [hq, roomCentre]; congr 1; ring
      · rw [hfloors, List.mem_flatMap]
        exact ⟨_, by rw [hcalls]; exact hroom, htile⟩

/-- Witness of C18 for the room `createRoom(288, 336, 128, 176)`: origin
`(16 * 18, 16 * 8)`, extent `(16 * 3, 16 * 3)`. -/
theorem snapped_centre_painted_witness :
    0 < 3 ∧ 0 < 3 ∧
    ∃ tiles : List (ℚ × ℚ),
      (createRoom sampleState (16 * ((18 : ℤ) : ℚ)) (16 * ((18 : ℤ) : ℚ) + 16 * ((3 : ℕ) : ℚ))
        (16 * ((8 : ℤ) : ℚ)) (16 * ((8 : ℤ) : ℚ) + 16 * ((3 : ℕ) : ℚ))).floors
        = sampleState.floors ++ tiles ∧
      (snapToFloor (16 * ((18 : ℤ) : ℚ) + 16 * ((3 : ℕ) : ℚ) / 2) 16,
        snapToFloor (16 * ((8 : ℤ) : ℚ) + 16 * ((3 : ℕ) : ℚ) / 2) 16) ∈ tiles :=
  ⟨by decide, by decide,
    (snapped_centre_painted sampleState 18 8 3 3 (by decide) (by decide)).1⟩

/-! ## The previous centre -/

theorem placeRoom_error_iff (g : Game) (t : MapState) :
    placeRoom g t = Except.error JSError.typeError ↔
      (t.num_rooms ≠ 0 ∧ t.lastRoomCoords = none) := by
  by_cases h0 : t.num_rooms = 0
  · rw [placeRoom_first g t h0]
    simp [h0]
  · cases hc : t.lastRoomCoords with
    | none => simp [placeRoom_undefined g t h0 hc, h0]
    | some c => simp [placeRoom_next g t c h0 hc]

theorem placeRoom_lastRoomCenter (g : Game) (t : MapState) (v : ℚ × ℚ) :
    placeRoom g { t with lastRoomCenter := v }
      = (placeRoom g t).map (fun t' => { t' with lastRoomCenter := v }) := by
  by_cases h0 : t.num_rooms = 0
  · rw [placeRoom_first g t h0, placeRoom_first g { t with lastRoomCenter := v } h0]
    rfl
  · rcases Option.eq_none_or_eq_some t.lastRoomCoords with hc | ⟨c, hc⟩
    · rw [placeRoom_undefined g t h0 hc,
        placeRoom_undefined g { t with lastRoomCenter := v } h0 hc]
      rfl
    · rw [placeRoom_next g t c h0 hc,
        placeRoom_next g { t with lastRoomCenter := v } c h0 hc]
      rfl

theorem foldl_placeRoom_lastRoomCenter (g : Game) (v : ℚ × ℚ) (l : List ℕ) :
    ∀ acc : Except JSError MapState,
      l.foldl (fun a (_ : ℕ) => a.bind (placeRoom g))
          (acc.map (fun t' => { t' with lastRoomCenter := v }))
        = (l.foldl (fun a (_ : ℕ) => a.bind (placeRoom g)) acc).map
            (fun t' => { t' with lastRoomCenter := v }) := by
  induction l with
  | nil => intro acc; rfl
  | cons k l ih =>
    intro acc
    simp only [List.foldl_cons]
    rw [← ih]
    congr 1
    cases acc with
    | error e => rfl
    | ok t => exact placeRoom_lastRoomCenter g t v

/-- Neither the wall fill nor the room loop reads or writes `lastRoomCenter`:
changing the field before `makeMap` changes that field of the result and
nothing else. -/
theorem makeMap_lastRoomCenter (g : Game) (t : MapState) (v : ℚ × ℚ) :
    makeMap g { t with lastRoomCenter := v }
      = (makeMap g t).map (fun t' => { t' with lastRoomCenter := v }) := by
  unfold makeMap roomLoop
  rw [forLoop_eq_foldl, forLoop_eq_foldl]
  have h1 : (fillWalls g { t with lastRoomCenter := v }).max_rooms
      = (fillWalls g t).max_rooms := by
    simp [fillWalls_eq]
  have h2 : (Except.ok (fillWalls g { t with lastRoomCenter := v }) : Except JSError MapState)
      = (Except.ok (fillWalls g t) : Except JSError MapState).map
          (fun t' => { t' with lastRoomCenter := v }) := by
    simp [fillWalls_eq, Except.map]
  rw [h1, h2]
  exact foldl_placeRoom_lastRoomCenter g v _ _

/-- C19: the constructor never reads `lastRoomCoords` before it has been
assigned.  An iteration of the room loop raises the TypeError of an undefined
read exactly when `num_rooms` is not 0 while `lastRoomCoords` is undefined, and
no run of the constructor does; the constructor sets `lastRoomCenter`, a
different field, that `makeMap` neither reads nor writes; an iteration that
completes records the unsnapped centre `(x + w/2, y + h/2)` of the room it
painted; and tunnel `i` of a run is routed from the snapped centre of room `i`,
the value recorded at the end of the preceding iteration. -/
theorem lastRoomCoords_assigned_before_read (g : Game) (lo hi N : ℤ) :
    (∀ t : MapState, placeRoom g t = Except.error JSError.typeError ↔
      (t.num_rooms ≠ 0 ∧ t.lastRoomCoords = none)) ∧
    (∀ t t' : MapState, placeRoom g t = Except.ok t' →
      t'.num_rooms = t.num_rooms + 1 ∧
      ∃ x y w h : ℚ,
        (t'.calls.drop t.calls.length).head? = some (Call.createRoom x (x + w) y (y + h)) ∧
        t'.lastRoomCoords = some (x + w / 2, y + h / 2)) ∧
    (∀ (t : MapState) (v : ℚ × ℚ), makeMap g { t with lastRoomCenter := v }
      = (makeMap g t).map (fun t' => { t' with lastRoomCenter := v })) ∧
    ∃ s : MapState, Map g lo hi N = Except.ok s ∧
      s.lastRoomCenter = (0, 0) ∧
      (s.calls.filter Call.isRoom).length = N.toNat ∧
      (s.calls.filter Call.isHTunnel).length = N.toNat - 1 ∧
      (s.calls.filter Call.isVTunnel).length = N.toNat - 1 ∧
      ∀ i, i + 1 < N.toNat → ∃ x y w h q q' : ℚ,
        (s.calls.filter Call.isRoom)[i]? = some (Call.createRoom x (x + w) y (y + h)) ∧
        (s.calls.filter Call.isHTunnel)[i]?
          = some (Call.createHTunnel (snapToFloor (x + w / 2) 16) q
              (snapToFloor (y + h / 2) 16)) ∧
        (s.calls.filter Call.isVTunnel)[i]?
          = some (Call.createVTunnel (snapToFloor (y + h / 2) 16) q' q) := by
  refine ⟨placeRoom_error_iff g, ?_, makeMap_lastRoomCenter g, ?_⟩
  · intro t t' hstep
    obtain ⟨h1, h2, h3, _⟩ := placeRoom_records g t t' hstep
    exact ⟨h3, roomX g t.room_min_size t.room_max_size t.draws,
      roomY g t.room_min_size t.room_max_size t.draws,
      roomW g t.room_min_size t.room_max_size t.draws,
      roomH g t.room_min_size t.room_max_size t.draws, h1, h2⟩
  · refine ⟨_, Map_eq g lo hi N, rfl, ?_, ?_, ?_, ?_⟩
    · simp only [filter_isRoom_calls, List.length_map, List.length_range]
    · simp only [filter_isHTunnel_calls, List.length_map, List.length_range]
    · simp only [filter_isVTunnel_calls, List.length_map, List.length_range]
    · intro i hin
      refine ⟨roomX g lo hi (0 + 4 * i), roomY g lo hi (0 + 4 * i), roomW g lo hi (0 + 4 * i),
        roomH g lo hi (0 + 4 * i), snapToFloor (roomCentre g lo hi (0 + 4 * (i + 1))).1 16,
        snapToFloor (roomCentre g lo hi (0 + 4 * (i + 1))).2 16, ?_, ?_, ?_⟩
      · simp only [filter_isRoom_calls]
        rw [List.getElem?_map, List.getElem?_range (by omega : i < N.toNat)]
        rfl
      · simp only [filter_isHTunnel_calls]
        rw [List.getElem?_map, List.getElem?_range (by omega : i < N.toNat - 1)]
        rfl
      · simp only [filter_isVTunnel_calls]
        rw [List.getElem?_map, List.getElem?_range (by omega : i < N.toNat - 1)]
        rfl

/-! ## Binary64 rounding -/

theorem roundHalfEven_intCast (z : ℤ) : roundHalfEven (z : ℚ) = z := by
  simp [roundHalfEven]

theorem roundHalfEven_nonneg (q : ℚ) (hq : 0 ≤ q) : 0 ≤ roundHalfEven q := by
  have hf : 0 ≤ ⌊q⌋ := Int.floor_nonneg.mpr hq
  unfold roundHalfEven
  split_ifs <;> omega

/-- Rounding does not pass an integer that bounds the argument from above. -/
theorem roundHalfEven_le (q : ℚ) (n : ℤ) (hq : q ≤ (n : ℚ)) : roundHalfEven q ≤ n := by
  have hfq : (⌊q⌋ : ℚ) ≤ q := Int.floor_le q
  unfold roundHalfEven
  split_ifs with h1 h2 h3
  · exact_mod_cast (le_trans hfq hq)
  · have : (⌊q⌋ : ℚ) < (n : ℚ) := by linarith
    have : ⌊q⌋ < n := by exact_mod_cast this
    omega
  · exact_mod_cast (le_trans hfq hq)
  · have h4 : q - (⌊q⌋ : ℚ) = 1 / 2 := le_antisymm (not_lt.mp h2) (not_lt.mp h1)
    have : (⌊q⌋ : ℚ) < (n : ℚ) := by linarith
    have : ⌊q⌋ < n := by exact_mod_cast this
    omega

/-- An argument more than one half below an integer is rounded below it. -/
theorem roundHalfEven_le_pred (q : ℚ) (n : ℤ) (hq : q < (n : ℚ) - 1 / 2) :
    roundHalfEven q ≤ n - 1 := by
  have hfq : (⌊q⌋ : ℚ) ≤ q := Int.floor_le q
  have hf : ⌊q⌋ ≤ n - 1 := by
    have : (⌊q⌋ : ℚ) < (n : ℚ) := by linarith
    have : ⌊q⌋ < n := by exact_mod_cast this
    omega
  unfold roundHalfEven
  split_ifs with h1 h2 h3
  · exact hf
  · have : (⌊q⌋ : ℚ) + 1 < (n : ℚ) := by linarith
    have : ⌊q⌋ + 1 < n := by exact_mod_cast this
    omega
  · exact hf
  · have h4 : q - (⌊q⌋ : ℚ) = 1 / 2 := le_antisymm (not_lt.mp h2) (not_lt.mp h1)
    have : (⌊q⌋ : ℚ) + 1 < (n : ℚ) := by linarith
    have : ⌊q⌋ + 1 < n := by exact_mod_cast this
    omega

theorem two_zpow_pos (e : ℤ) : (0 : ℚ) < 2 ^ e := zpow_pos (by norm_num) e

theorem binade_ge (x : ℚ) : -1022 ≤ binade x := le_max_right _ _

theorem binade_eq (x : ℚ) (e : ℤ) (hlo : (2 : ℚ) ^ e ≤ |x|) (hhi : |x| < (2 : ℚ) ^ (e + 1))
    (he : -1022 ≤ e) : binade x = e := by
  have hpos : 0 < |x| := lt_of_lt_of_le (two_zpow_pos e) hlo
  have h1 : e ≤ Int.log 2 |x| := by
    rw [← Int.zpow_le_iff_le_log (by norm_num) hpos]
    exact_mod_cast hlo
  have h2 : Int.log 2 |x| < e + 1 := by
    rw [← Int.lt_zpow_iff_log_lt (by norm_num) hpos]
    exact_mod_cast hhi
  unfold binade
  rw [max_eq_left (by omega)]
  omega

/-- Every value lies below the upper end of its binade. -/
theorem lt_two_zpow_binade (x : ℚ) : |x| < (2 : ℚ) ^ (binade x + 1) := by
  have h1 : |x| < ((2 : ℕ) : ℚ) ^ (Int.log 2 |x| + 1) := Int.lt_zpow_succ_log_self (by norm_num) _
  have h2 : ((2 : ℕ) : ℚ) ^ (Int.log 2 |x| + 1) ≤ (2 : ℚ) ^ (binade x + 1) := by
    have : Int.log 2 |x| + 1 ≤ binade x + 1 := by
      have := le_max_left (Int.log 2 |x|) (-1022)
      unfold binade
      omega
    have h3 := zpow_le_zpow_right₀ (by norm_num : (1 : ℚ) ≤ 2) this
    exact_mod_cast h3
  exact lt_of_lt_of_le h1 h2

/-- A value whose binade is not the least one is at least the lower end of its
binade. -/
theorem two_zpow_binade_le (x : ℚ) (hx : x ≠ 0) (hb : -1022 < binade x) :
    (2 : ℚ) ^ binade x ≤ |x| := by
  have hpos : 0 < |x| := abs_pos.mpr hx
  have hlog : binade x = Int.log 2 |x| := by
    unfold binade at hb ⊢
    rcases le_total (Int.log 2 |x|) (-1022) with h | h
    · rw [max_eq_right h] at hb; omega
    · exact max_eq_left h
  rw [hlog]
  have := Int.zpow_log_le_self (by norm_num : 1 < 2) hpos
  exact_mod_cast this

theorem binade_mono (x y : ℚ) (hx : 0 < x) (hxy : x ≤ y) : binade x ≤ binade y := by
  have h := Int.log_mono_right (b := 2) (by rwa [abs_of_pos hx] : 0 < |x|)
    (by rwa [abs_of_pos hx, abs_of_pos (lt_of_lt_of_le hx hxy)] : |x| ≤ |y|)
  unfold binade
  exact max_le_max h (le_refl _)

theorem roundDouble_zero : roundDouble 0 = 0 := by
  simp [roundDouble, roundHalfEven]

theorem roundDouble_nonneg (x : ℚ) (hx : 0 ≤ x) : 0 ≤ roundDouble x := by
  unfold roundDouble
  have h1 : 0 ≤ x / 2 ^ (binade x - 52) := div_nonneg hx (le_of_lt (two_zpow_pos _))
  have h2 : (0 : ℚ) ≤ (roundHalfEven (x / 2 ^ (binade x - 52)) : ℚ) := by
    exact_mod_cast roundHalfEven_nonneg _ h1
  exact mul_nonneg h2 (le_of_lt (two_zpow_pos _))

theorem two_zpow_split (e : ℤ) :
    (2 : ℚ) ^ (e + 1) = 2 ^ 53 * 2 ^ (e - 52) ∧ (2 : ℚ) ^ e = 2 ^ 52 * 2 ^ (e - 52) := by
  have h1 : (e + 1 : ℤ) = ((53 : ℕ) : ℤ) + (e - 52) := by push_cast; ring
  have h2 : (e : ℤ) = ((52 : ℕ) : ℤ) + (e - 52) := by push_cast; ring
  constructor
  · rw [h1, zpow_add₀ (by norm_num : (2 : ℚ) ≠ 0), zpow_natCast]
  · nth_rewrite 1 [h2]
    rw [zpow_add₀ (by norm_num : (2 : ℚ) ≠ 0), zpow_natCast]

/-- A number `m * 2^j` with a significand of at most 53 bits and an exponent in
the binary64 range is a binary64 number: rounding leaves it unchanged. -/
theorem roundDouble_exact (m j : ℤ) (hm : |m| < 2 ^ 53) (hj : -1074 ≤ j) :
    roundDouble ((m : ℚ) * 2 ^ j) = (m : ℚ) * 2 ^ j := by
  by_cases hm0 : m = 0
  · subst hm0; simp [roundDouble_zero]
  have hx0 : (m : ℚ) * 2 ^ j ≠ 0 :=
    mul_ne_zero (by exact_mod_cast hm0) (ne_of_gt (two_zpow_pos j))
  have hexp : binade ((m : ℚ) * 2 ^ j) - 52 ≤ j := by
    by_cases hb : -1022 < binade ((m : ℚ) * 2 ^ j)
    · have h1 := two_zpow_binade_le _ hx0 hb
      have h2 : |(m : ℚ) * 2 ^ j| < 2 ^ 53 * 2 ^ j := by
        rw [abs_mul, abs_of_pos (two_zpow_pos j)]
        have : |(m : ℚ)| < 2 ^ 53 := by exact_mod_cast hm
        exact mul_lt_mul_of_pos_right this (two_zpow_pos j)
      have h3 : (2 : ℚ) ^ 53 * 2 ^ j = 2 ^ (j + 52 + 1) := by
        rw [(two_zpow_split (j + 52)).1]; congr 2; ring
      rw [h3] at h2
      have h4 := lt_of_le_of_lt h1 h2
      by_contra hcon
      have h5 : j + 52 + 1 ≤ binade ((m : ℚ) * 2 ^ j) := by omega
      have h6 := zpow_le_zpow_right₀ (by norm_num : (1 : ℚ) ≤ 2) h5
      linarith
    · have := binade_ge ((m : ℚ) * 2 ^ j)
      omega
  obtain ⟨k, hk⟩ : ∃ k : ℕ, (k : ℤ) = j - (binade ((m : ℚ) * 2 ^ j) - 52) :=
    ⟨(j - (binade ((m : ℚ) * 2 ^ j) - 52)).toNat, Int.toNat_of_nonneg (by omega)⟩
  have hj2 : (2 : ℚ) ^ j = 2 ^ k * 2 ^ (binade ((m : ℚ) * 2 ^ j) - 52) := by
    have : j = (k : ℤ) + (binade ((m : ℚ) * 2 ^ j) - 52) := by omega
    nth_rewrite 1 [this]
    rw [zpow_add₀ (by norm_num : (2 : ℚ) ≠ 0), zpow_natCast]
  have hupos := two_zpow_pos (binade ((m : ℚ) * 2 ^ j) - 52)
  have hq : (m : ℚ) * 2 ^ j / 2 ^ (binade ((m : ℚ) * 2 ^ j) - 52) = ((m * 2 ^ k : ℤ) : ℚ) := by
    nth_rewrite 1 [hj2]
    field_simp
    ring
  unfold roundDouble
  rw [hq, roundHalfEven_intCast]
  nth_rewrite 2 [hj2]
  push_cast
  ring

theorem roundDouble_intCast (n : ℤ) (hn : |n| ≤ 2 ^ 53) : roundDouble (n : ℚ) = (n : ℚ) := by
  rcases lt_or_eq_of_le hn with h | h
  · have := roundDouble_exact n 0 h (by norm_num)
    simpa using this
  · rcases abs_eq (by norm_num : (0 : ℤ) ≤ 2 ^ 53) |>.mp h with h1 | h1
    · have := roundDouble_exact 1 53 (by norm_num) (by norm_num)
      rw [h1]
      have h2 : ((1 : ℤ) : ℚ) * 2 ^ (53 : ℤ) = (((2 : ℤ) ^ 53 : ℤ) : ℚ) := by norm_num
      rw [h2] at this
      exact this
    · have := roundDouble_exact (-1) 53 (by norm_num) (by norm_num)
      rw [h1]
      have h2 : ((-1 : ℤ) : ℚ) * 2 ^ (53 : ℤ) = ((-(2 : ℤ) ^ 53 : ℤ) : ℚ) := by norm_num
      rw [h2] at this
      exact this

theorem binade_pos_of_one_le (x : ℚ) (hx : 1 ≤ x) : -1022 < binade x := by
  have hpos : 0 < |x| := by rw [abs_of_pos (by linarith)]; linarith
  have h1 : (0 : ℤ) ≤ Int.log 2 |x| := by
    rw [← Int.zpow_le_iff_le_log (by norm_num) hpos]
    rw [abs_of_pos (by linarith)]
    simpa using hx
  have := le_max_left (Int.log 2 |x|) (-1022)
  unfold binade
  omega

/-- The rounded product of a binary64 value `r` in `[0, 1)`, which is at most
`1 - 2^-53`, and a positive normal binary64 number `c` stays below `c`. -/
theorem roundDouble_mul_lt (r c : ℚ) (hr0 : 0 ≤ r) (hr1 : r ≤ 1 - 1 / 2 ^ 53) (hc0 : 0 < c)
    (hcb : -1022 < binade c) (hcd : roundDouble c = c) :
    0 ≤ roundDouble (r * c) ∧ roundDouble (r * c) < c := by
  have hx0 : 0 ≤ r * c := mul_nonneg hr0 (le_of_lt hc0)
  refine ⟨roundDouble_nonneg _ hx0, ?_⟩
  have hxc : r * c ≤ c - c / 2 ^ 53 := by
    have := mul_le_mul_of_nonneg_right hr1 (le_of_lt hc0)
    have h2 : (1 - 1 / 2 ^ 53) * c = c - c / 2 ^ 53 := by ring
    linarith
  rcases eq_or_lt_of_le hx0 with hz | hpos
  · rw [← hz, roundDouble_zero]; exact hc0
  have hxlt : r * c < c := by
    have : 0 < c / 2 ^ 53 := div_pos hc0 (by norm_num)
    linarith
  have hle : binade (r * c) ≤ binade c := binade_mono _ _ hpos (le_of_lt hxlt)
  have hux := two_zpow_pos (binade (r * c) - 52)
  have hcl : (2 : ℚ) ^ binade c ≤ c := by
    have := two_zpow_binade_le c (ne_of_gt hc0) hcb
    rwa [abs_of_pos hc0] at this
  have hxu : r * c < 2 ^ 53 * 2 ^ (binade (r * c) - 52) := by
    have := lt_two_zpow_binade (r * c)
    rwa [abs_of_pos hpos, (two_zpow_split _).1] at this
  have hfl : roundDouble (r * c)
      = (roundHalfEven (r * c / 2 ^ (binade (r * c) - 52)) : ℚ) * 2 ^ (binade (r * c) - 52) := rfl
  rcases lt_or_eq_of_le hle with hlt | heq
  · -- the product lies in a lower binade than `c`
    have htop : (2 : ℚ) ^ 53 * 2 ^ (binade (r * c) - 52) ≤ c := by
      rw [← (two_zpow_split _).1]
      exact le_trans (zpow_le_zpow_right₀ (by norm_num : (1 : ℚ) ≤ 2) (by omega)) hcl
    rcases lt_or_eq_of_le htop with hgt | hceq
    · have hq : r * c / 2 ^ (binade (r * c) - 52) ≤ (((2 : ℤ) ^ 53 : ℤ) : ℚ) := by
        rw [div_le_iff₀ hux]; push_cast; linarith
      have hrd := roundHalfEven_le _ _ hq
      have hrd' : (roundHalfEven (r * c / 2 ^ (binade (r * c) - 52)) : ℚ) ≤ 2 ^ 53 := by
        exact_mod_cast hrd
      rw [hfl]
      have := mul_le_mul_of_nonneg_right hrd' (le_of_lt hux)
      linarith
    · have hq : r * c / 2 ^ (binade (r * c) - 52) ≤ (((2 : ℤ) ^ 53 - 1 : ℤ) : ℚ) := by
        rw [div_le_iff₀ hux]; push_cast
        have h1 : c / 2 ^ 53 = 2 ^ (binade (r * c) - 52) := by
          rw [div_eq_iff (by norm_num)]; linarith
        rw [h1] at hxc
        linarith
      have hrd := roundHalfEven_le _ _ hq
      have hrd' : (roundHalfEven (r * c / 2 ^ (binade (r * c) - 52)) : ℚ) ≤ 2 ^ 53 - 1 := by
        exact_mod_cast hrd
      rw [hfl]
      have := mul_le_mul_of_nonneg_right hrd' (le_of_lt hux)
      linarith
  · -- the product lies in the binade of `c`
    have hxl : (2 : ℚ) ^ binade (r * c) ≤ r * c := by
      have := two_zpow_binade_le (r * c) (ne_of_gt hpos) (by omega)
      rwa [abs_of_pos hpos] at this
    have hcM : c = (roundHalfEven (c / 2 ^ (binade c - 52)) : ℚ) * 2 ^ (binade c - 52) := by
      nth_rewrite 1 [← hcd]; rfl
    rw [← heq] at hcM
    generalize roundHalfEven (c / 2 ^ (binade (r * c) - 52)) = M at hcM
    have hM : (2 : ℤ) ^ 52 < M := by
      have h1 : (2 : ℚ) ^ 52 * 2 ^ (binade (r * c) - 52) < (M : ℚ) * 2 ^ (binade (r * c) - 52) := by
        rw [← (two_zpow_split _).2, ← hcM]
        exact lt_of_le_of_lt hxl hxlt
      have h2 : (2 : ℚ) ^ 52 < (M : ℚ) := lt_of_mul_lt_mul_right h1 (le_of_lt hux)
      exact_mod_cast h2
    have hM' : ((2 : ℚ) ^ 52 + 1) ≤ (M : ℚ) := by
      have : (2 : ℤ) ^ 52 + 1 ≤ M := by omega
      exact_mod_cast this
    have hq : r * c / 2 ^ (binade (r * c) - 52) < (M : ℚ) - 1 / 2 := by
      rw [div_lt_iff₀ hux]
      have h1 : c / 2 ^ 53 = (M : ℚ) / 2 ^ 53 * 2 ^ (binade (r * c) - 52) := by
        rw [div_eq_iff (by norm_num)]
        have : (M : ℚ) / 2 ^ 53 * 2 ^ (binade (r * c) - 52) * 2 ^ 53
            = (M : ℚ) * 2 ^ (binade (r * c) - 52) := by field_simp
        linarith
      have h2 : (1 : ℚ) / 2 < (M : ℚ) / 2 ^ 53 := by
        rw [lt_div_iff₀ (by norm_num)]
        have : (1 : ℚ) / 2 * 2 ^ 53 = 2 ^ 52 := by norm_num
        linarith
      have h3 := mul_lt_mul_of_pos_right h2 hux
      have h4 : ((M : ℚ) - 1 / 2) * 2 ^ (binade (r * c) - 52)
          = (M : ℚ) * 2 ^ (binade (r * c) - 52) - 1 / 2 * 2 ^ (binade (r * c) - 52) := by
        ring
      rw [h4]
      linarith
    have hrd := roundHalfEven_le_pred _ _ hq
    have hrd' : (roundHalfEven (r * c / 2 ^ (binade (r * c) - 52)) : ℚ) ≤ (M : ℚ) - 1 := by
      exact_mod_cast hrd
    rw [hfl]
    have h5 := mul_le_mul_of_nonneg_right hrd' (le_of_lt hux)
    have h6 : ((M : ℚ) - 1) * 2 ^ (binade (r * c) - 52)
        = (M : ℚ) * 2 ^ (binade (r * c) - 52) - 2 ^ (binade (r * c) - 52) := by ring
    linarith

theorem roundDouble_of_binade (x : ℚ) (e : ℤ) (hlo : (2 : ℚ) ^ e ≤ |x|)
    (hhi : |x| < (2 : ℚ) ^ (e + 1)) (he : -1022 ≤ e) :
    roundDouble x = (roundHalfEven (x / 2 ^ (e - 52)) : ℚ) * 2 ^ (e - 52) := by
  unfold roundDouble
  rw [binade_eq x e hlo hhi he]

theorem roundHalfEven_neg (q : ℚ) : roundHalfEven (-q) = -roundHalfEven q := by
  by_cases hint : (⌊q⌋ : ℚ) = q
  · rw [← hint, ← Int.cast_neg, roundHalfEven_intCast, roundHalfEven_intCast]
  · have hfl : (⌊q⌋ : ℚ) < q := lt_of_le_of_ne (Int.floor_le q) hint
    have hlt : q < (⌊q⌋ : ℚ) + 1 := Int.lt_floor_add_one q
    have hneg : ⌊-q⌋ = -⌊q⌋ - 1 := by
      rw [Int.floor_eq_iff]
      push_cast
      constructor <;> linarith
    unfold roundHalfEven
    rw [hneg]
    push_cast
    split_ifs with h1 h2 h3 h4 h5 h6 h7 h8 h9 <;> first
      | omega
      | (exfalso; linarith)

theorem binade_neg (x : ℚ) : binade (-x) = binade x := by
  unfold binade
  rw [abs_neg]

theorem roundDouble_neg (x : ℚ) : roundDouble (-x) = -roundDouble x := by
  unfold roundDouble
  rw [binade_neg, neg_div, roundHalfEven_neg]
  push_cast
  ring

/-- The rounded product of a binary64 value `r` of `[0, 1)` and a binary64 number
`c`, zero or normal, is the exact product of `c` and some other value of
`[0, 1)`: taking the product exactly while the random value ranges over all of
`[0, 1)` covers every result of the binary64 product. -/
theorem roundDouble_mul_covered (r c : ℚ) (hr0 : 0 ≤ r) (hr1 : r ≤ 1 - 1 / 2 ^ 53)
    (hcd : roundDouble c = c) (hcb : c = 0 ∨ -1022 < binade c) :
    ∃ r' : ℚ, 0 ≤ r' ∧ r' < 1 ∧ roundDouble (r * c) = r' * c := by
  rcases lt_trichotomy c 0 with hneg | hzero | hpos
  · have hb : -1022 < binade (-c) := by
      rw [binade_neg]
      rcases hcb with h | h
      · exact absurd h (ne_of_lt hneg)
      · exact h
    have hd : roundDouble (-c) = -c := by rw [roundDouble_neg, hcd]
    have h := roundDouble_mul_lt r (-c) hr0 hr1 (by linarith) hb hd
    have e : roundDouble (r * c) = -roundDouble (r * -c) := by
      rw [← roundDouble_neg]; congr 1; ring
    refine ⟨roundDouble (r * c) / c, ?_, ?_, ?_⟩
    · exact div_nonneg_of_nonpos (by rw [e]; linarith [h.1]) (le_of_lt hneg)
    · rw [div_lt_one_of_neg hneg, e]; linarith [h.2]
    · field_simp [ne_of_lt hneg]
  · subst hzero
    exact ⟨0, le_refl _, by norm_num, by simp [roundDouble_zero]⟩
  · have hb : -1022 < binade c := by
      rcases hcb with h | h
      · exact absurd h (ne_of_gt hpos)
      · exact h
    have h := roundDouble_mul_lt r c hr0 hr1 hpos hb hcd
    refine ⟨roundDouble (r * c) / c, div_nonneg h.1 (le_of_lt hpos), ?_, ?_⟩
    · rw [div_lt_one hpos]; exact h.2
    · field_simp [ne_of_gt hpos]

/-! ## getRandom in binary64 arithmetic -/

/-- The rounding of the product is visible at ordinary sizes: with the binary64
value nearest to 0.7, `getRandom(0, 10)` is 7 in binary64 arithmetic, while the
integer part of the exact product is 6. -/
theorem getRandomDouble_rounds_up :
    getRandomDouble (3152519739159347 / 4503599627370496) 0 10 = 7 ∧
    ⌊(3152519739159347 / 4503599627370496 : ℚ) * (10 - 0)⌋ + 0 = 6 := by
  constructor
  · have h1 : roundDouble ((10 : ℚ) - 0) = 10 := by
      have := roundDouble_intCast 10 (by norm_num)
      norm_num at this ⊢
      exact this
    have h2 : roundDouble ((3152519739159347 / 4503599627370496 : ℚ) * 10) = 7 := by
      rw [roundDouble_of_binade _ 2 (by norm_num [abs_of_pos]) (by norm_num [abs_of_pos])
        (by norm_num)]
      norm_num [roundHalfEven]
    have h3 : roundDouble ((7 : ℚ) + 0) = 7 := by
      have := roundDouble_intCast 7 (by norm_num)
      norm_num at this ⊢
      exact this
    unfold getRandomDouble
    rw [h1, h2]
    norm_num
    simpa using h3
  · norm_num

/-- Counterexample to C8: with `min = 2^53 + 2`, `max = 2^53 + 4` and the random
value 3/4, the product 1.5 has integer part 1 and the sum `2^53 + 3`, which is
not a binary64 number, is rounded to `2^53 + 4`: `getRandom` returns `max`. -/
theorem getRandom_range_counterexample :
    (9007199254740994 : ℤ) < 9007199254740996 ∧ (0 : ℚ) ≤ 3 / 4 ∧ (3 : ℚ) / 4 < 1 ∧
    getRandomDouble (3 / 4) ((9007199254740994 : ℤ) : ℚ) ((9007199254740996 : ℤ) : ℚ)
      = ((9007199254740996 : ℤ) : ℚ) ∧
    ¬ (getRandomDouble (3 / 4) ((9007199254740994 : ℤ) : ℚ) ((9007199254740996 : ℤ) : ℚ)
        < ((9007199254740996 : ℤ) : ℚ)) := by
  have hval : getRandomDouble (3 / 4) ((9007199254740994 : ℤ) : ℚ)
      ((9007199254740996 : ℤ) : ℚ) = ((9007199254740996 : ℤ) : ℚ) := ?_
  · exact ⟨by norm_num, by norm_num, by norm_num, hval, by rw [hval]; exact lt_irrefl _⟩
  have h1 : roundDouble ((9007199254740996 : ℚ) - 9007199254740994) = 2 := by
    have := roundDouble_intCast 2 (by norm_num)
    norm_num at this ⊢
    exact this
  have h2 : roundDouble ((3 / 4 : ℚ) * 2) = 3 / 2 := by
    have := roundDouble_exact 3 (-1) (by norm_num) (by norm_num)
    norm_num at this ⊢
    exact this
  have h3 : roundDouble (9007199254740995 : ℚ) = 9007199254740996 := by
    rw [roundDouble_of_binade _ 53 (by norm_num [abs_of_pos]) (by norm_num [abs_of_pos])
      (by norm_num)]
    norm_num [roundHalfEven]
  unfold getRandomDouble
  push_cast
  rw [h1, h2]
  norm_num
  exact h3

/-- C8, amended: for integers `min < max` between `-2^52` and `2^52` and a
binary64 random value `r` of `[0, 1)`, so that `r <= 1 - 2^-53`, the binary64
value of `Math.floor(r * (max - min)) + min` is an integer `k` with
`min <= k < max`; it is the value `getRandom` takes in exact arithmetic for some
random value of `[0, 1)`, though not always for `r` itself.  Consequently every
room placed by the constructor has width `kw * 16` and height `kh * 16` with
`min_room_size <= kw, kh < max_room_size`. -/
theorem getRandomDouble_range (r : ℚ) (lo hi : ℤ) (hlt : lo < hi)
    (hlo : -(2 ^ 52) ≤ lo) (hhi : hi ≤ 2 ^ 52) (hr0 : 0 ≤ r) (hr1 : r ≤ 1 - 1 / 2 ^ 53) :
    (∃ k : ℤ, getRandomDouble r (lo : ℚ) (hi : ℚ) = (k : ℚ) ∧ lo ≤ k ∧ k < hi ∧
      ∃ r' : ℚ, 0 ≤ r' ∧ r' < 1 ∧
        ∀ (g : Game) (s : MapState), g.random s.draws = r' →
          (getRandom g s (lo : ℚ) (hi : ℚ)).1 = (k : ℚ)) ∧
    ∀ (g : Game) (N : ℤ), (∀ d, 0 ≤ g.random d ∧ g.random d < 1) →
      ∃ s : MapState, Map g lo hi N = Except.ok s ∧
        (s.calls.filter Call.isRoom).length = N.toNat ∧
        ∀ x1 x2 y1 y2, Call.createRoom x1 x2 y1 y2 ∈ s.calls →
          ∃ kw kh : ℤ, lo ≤ kw ∧ kw < hi ∧ lo ≤ kh ∧ kh < hi ∧
            x2 - x1 = (kw : ℚ) * 16 ∧ y2 - y1 = (kh : ℚ) * 16 := by
  constructor
  · have hcast : (hi : ℚ) - (lo : ℚ) = ((hi - lo : ℤ) : ℚ) := by push_cast; ring
    have hc1 : (1 : ℚ) ≤ ((hi - lo : ℤ) : ℚ) := by exact_mod_cast (by omega : (1 : ℤ) ≤ hi - lo)
    have hcd : roundDouble (((hi - lo : ℤ) : ℚ)) = ((hi - lo : ℤ) : ℚ) :=
      roundDouble_intCast _ (by rw [abs_le]; constructor <;> omega)
    have hp := roundDouble_mul_lt r ((hi - lo : ℤ) : ℚ) hr0 hr1 (by linarith)
      (binade_pos_of_one_le _ hc1) hcd
    have hk0 : 0 ≤ ⌊roundDouble (r * ((hi - lo : ℤ) : ℚ))⌋ := Int.floor_nonneg.mpr hp.1
    have hk1 : ⌊roundDouble (r * ((hi - lo : ℤ) : ℚ))⌋ < hi - lo := Int.floor_lt.mpr hp.2
    have hsum : roundDouble (((⌊roundDouble (r * ((hi - lo : ℤ) : ℚ))⌋ + lo : ℤ) : ℚ))
        = ((⌊roundDouble (r * ((hi - lo : ℤ) : ℚ))⌋ + lo : ℤ) : ℚ) :=
      roundDouble_intCast _ (by rw [abs_le]; constructor <;> omega)
    obtain ⟨r', hr'0, hr'1, hr'⟩ := roundDouble_mul_covered r ((hi - lo : ℤ) : ℚ) hr0 hr1 hcd
      (Or.inr (binade_pos_of_one_le _ hc1))
    refine ⟨⌊roundDouble (r * ((hi - lo : ℤ) : ℚ))⌋ + lo, ?_, by omega, by omega,
      r', hr'0, hr'1, ?_⟩
    · unfold getRandomDouble
      rw [hcast, hcd]
      rw [← hsum]
      congr 1
      push_cast
      ring
    · intro g s hg
      simp only [getRandom, hg, hcast, ← hr']
      push_cast
      ring
  · intro g N hr
    obtain ⟨s, hs, _, _, hlen, hmem⟩ := Map_rooms g lo hi N
    refine ⟨s, hs, hlen, ?_⟩
    intro x1 x2 y1 y2 hc
    obtain ⟨k, _, hk⟩ := hmem x1 x2 y1 y2 hc
    obtain ⟨e1, e2, e3, e4⟩ := roomCall_eq g lo hi _ x1 x2 y1 y2 hk
    obtain ⟨kw, hw1, hw2, hw3⟩ :=
      size_draw_lt (g.random (0 + 4 * k)) lo hi (hr _).1 (hr _).2 hlt
    obtain ⟨kh, hh1, hh2, hh3⟩ :=
      size_draw_lt (g.random (0 + 4 * k + 1)) lo hi (hr _).1 (hr _).2 hlt
    refine ⟨kw, kh, hw1, hw2, hh1, hh2, ?_, ?_⟩
    · rw [e1, e2, roomW, hw3]; ring
    · rw [e3, e4, roomH, hh3]; ring

/-- Witness of the amended C8: room sizes 2 to 5 and the random value one
half. -/
theorem getRandomDouble_range_witness :
    (2 : ℤ) < 5 ∧ -(2 ^ 52) ≤ (2 : ℤ) ∧ (5 : ℤ) ≤ 2 ^ 52 ∧ (0 : ℚ) ≤ 1 / 2 ∧
    (1 : ℚ) / 2 ≤ 1 - 1 / 2 ^ 53 ∧
    ∃ k : ℤ, getRandomDouble (1 / 2) ((2 : ℤ) : ℚ) ((5 : ℤ) : ℚ) = (k : ℚ) ∧ 2 ≤ k ∧ k < 5 ∧
      ∃ r' : ℚ, 0 ≤ r' ∧ r' < 1 ∧
        ∀ (g : Game) (s : MapState), g.random s.draws = r' →
          (getRandom g s ((2 : ℤ) : ℚ) ((5 : ℤ) : ℚ)).1 = (k : ℚ) :=
  ⟨by norm_num, by norm_num, by norm_num, by norm_num, by norm_num,
    (getRandomDouble_range (1 / 2) 2 5 (by norm_num) (by norm_num) (by norm_num) (by norm_num)
      (by norm_num)).1⟩

end MapClass
